import Mathlib

/-!
# GraphQL toolkit: lexer and introspection projector

A shallow embedding of `internal/lexer/lexer.go` and
`internal/introspection/resolvers.go`, followed by theorems about them.

Conventions of the embedding

* A Go `string` is a Lean `String`; `len` is `String.utf8ByteSize`, slicing is
  `String.extract` on byte positions, and `<` is the lexicographic order of the
  characters (which on valid UTF-8 is Go's byte-wise order).
* A Go pointer or interface that may be `nil` is an `Option`.
* A Go `panic` is a `Fault`; code that can panic returns an `Except Fault _`
  (together with the lexer state it leaves behind, where it has one).
* A Go `map[string]V` is the list of its entries in the order a `range` loop
  happens to enumerate them; statements about maps assume distinct keys and
  hold for every enumeration order.
-/

namespace Go

/-- Go's `a < b` on strings. -/
def stringLess (a b : String) : Prop := a.data < b.data

instance : DecidableRel stringLess :=
  fun a b => inferInstanceAs (Decidable (a.data < b.data))

/-- Go's `a <= b` on strings. -/
def stringLE (a b : String) : Prop := ¬ stringLess b a

instance : DecidableRel stringLE :=
  fun a b => inferInstanceAs (Decidable (¬ stringLess b a))

/-- The standard library's `sort.Strings`: sorts in increasing order. -/
def sortStrings (names : List String) : List String :=
  names.insertionSort stringLE

/-- The standard library's `sort.Slice(x, less)`: reorders `x` so that no
element is `less` than its predecessor.  The order of elements that are not
`less` than one another is unspecified in Go; this model fixes one. -/
def sortSlice {α : Type} (less : α → α → Prop) [DecidableRel less] (x : List α) : List α :=
  x.insertionSort (fun a b => ¬ less b a)

/-- A map `map[string]V`, as the list of its entries in enumeration order. -/
abbrev Map (V : Type) := List (String × V)

/-- The keys of a map are pairwise distinct. -/
def Map.WF {V : Type} (m : Map V) : Prop := (m.map Prod.fst).Nodup

/-- The index expression `m[k]`; `none` is the zero value of a missing key. -/
def Map.index {V : Type} (m : Map V) (k : String) : Option V := List.lookup k m

/-- The keys in the order `for name := range m` visits them. -/
def Map.rangeKeys {V : Type} (m : Map V) : List String := m.map Prod.fst

/-- The value a `panic` carries: the lexer's `syntaxError` (a string type of
its own), a plain `string`, or a `runtime.Error` raised by the Go runtime
(failed type assertion, slice bounds out of range). -/
inductive Fault where
  | syntaxError (message : String)
  | string (message : String)
  | runtimeError (message : String)
  deriving DecidableEq, Repr

end Go

namespace lexer

/-- `type ShowType byte` with its four values. -/
inductive ShowType where
  | PossibleDescription
  | ShowStringDescription
  | ShowBlockDescription
  | NoDescription
  deriving DecidableEq, Repr

/-- `qerrors.Location`. -/
structure Location where
  Line : Int
  Column : Int
  deriving DecidableEq, Repr

/-- `type Description struct`: the zero value has show type
`PossibleDescription` (the byte `0`), empty text and the zero location. -/
structure Description where
  ShowType : ShowType := .PossibleDescription
  Text : String := ""
  Loc : Location := ⟨0, 0⟩
  deriving DecidableEq, Repr

end lexer

namespace schema

/-- Modelled from the spec: a literal of package `schema`, which is not in the
sources.  Only what `Evaluate(nil)` yields matters to the projector: a Go
string, or some value of another dynamic type. -/
inductive Literal where
  | str (s : String)
  | other (text : String)
  deriving DecidableEq, Repr

/-- Modelled from the spec: an argument `name: value` of a directive. -/
structure Argument where
  Name : String
  Value : Literal
  deriving DecidableEq, Repr

/-- Modelled from the spec: `ArgumentList.Get`, the value of the first argument
with the given name. -/
def ArgumentList.Get : List Argument → String → Option Literal
  | [], _ => none
  | a :: l, name => if a.Name = name then some a.Value else ArgumentList.Get l name

/-- Modelled from the spec: `ArgumentList.MustGet`, which panics when no
argument has the given name. -/
def ArgumentList.MustGet (l : List Argument) (name : String) : Except Go.Fault Literal :=
  match ArgumentList.Get l name with
  | some value => .ok value
  | none => .error (.string "argument not found")

/-- Modelled from the spec: `Evaluate(nil)` followed by the type assertion
`.(string)`, which panics on a value that is not a Go string. -/
def Literal.EvaluateString : Literal → Except Go.Fault String
  | .str s => .ok s
  | .other _ => .error (.runtimeError "interface conversion: value is not a string")

/-- Modelled from the spec: a directive attached to a schema entity. -/
structure Directive where
  Name : String
  Args : List Argument
  deriving DecidableEq, Repr

/-- Modelled from the spec: `DirectiveList.Get`, the first directive with the
given name, `nil` when there is none. -/
def DirectiveList.Get : List Directive → String → Option Directive
  | [], _ => none
  | d :: l, name => if d.Name = name then some d else DirectiveList.Get l name

/-- Modelled from the spec: an enum value and its attached directives. -/
structure EnumValue where
  Name : String
  Directives : List Directive
  Desc : lexer.Description
  deriving DecidableEq, Repr

mutual
/-- Modelled from the spec: the closed set of eight type variants behind the
interface `schema.Type`.  References between types are pointers in Go; here
the referenced type is a subterm. -/
inductive Type_ where
  | Scalar (Name : String) (Desc : lexer.Description)
  | Object (o : Object)
  | Interface (i : Interface)
  | Union (Name : String) (PossibleTypes : List Object) (Desc : lexer.Description)
  | Enum (Name : String) (Values : List EnumValue) (Desc : lexer.Description)
  | InputObject (Name : String) (Fields : List InputValue) (Desc : lexer.Description)
  | List (OfType : Type_)
  | NonNull (OfType : Type_)
/-- Modelled from the spec: `schema.Object{fields, interfaces}`. -/
inductive Object where
  | mk (Name : String) (Interfaces : List Interface) (Fields : List Field)
      (Desc : lexer.Description)
/-- Modelled from the spec: `schema.Interface{fields, possibleTypes}`. -/
inductive Interface where
  | mk (Name : String) (PossibleTypes : List Object) (Fields : List Field)
      (Desc : lexer.Description)
/-- Modelled from the spec: `schema.Field`. -/
inductive Field where
  | mk (Name : String) (Args : List InputValue) (Typ : Type_)
      (Directives : List Directive) (Desc : lexer.Description)
/-- Modelled from the spec: `schema.InputValue`. -/
inductive InputValue where
  | mk (Name : String) (Typ : Type_) (Default : Option Literal)
      (Desc : lexer.Description)
end

def Object.Name : Object → String
  | .mk n _ _ _ => n

def Object.Interfaces : Object → List Interface
  | .mk _ is _ _ => is

def Object.Fields : Object → List Field
  | .mk _ _ fs _ => fs

def Object.Desc : Object → lexer.Description
  | .mk _ _ _ d => d

def Interface.Name : Interface → String
  | .mk n _ _ _ => n

def Interface.PossibleTypes : Interface → List Object
  | .mk _ ps _ _ => ps

def Interface.Fields : Interface → List Field
  | .mk _ _ fs _ => fs

def Interface.Desc : Interface → lexer.Description
  | .mk _ _ _ d => d

def Field.Name : Field → String
  | .mk n _ _ _ _ => n

def Field.Args : Field → List InputValue
  | .mk _ as _ _ _ => as

def Field.Type_ : Field → Type_
  | .mk _ _ t _ _ => t

def Field.Directives : Field → List Directive
  | .mk _ _ _ ds _ => ds

def Field.Desc : Field → lexer.Description
  | .mk _ _ _ _ d => d

def InputValue.Name : InputValue → String
  | .mk n _ _ _ => n

def InputValue.Type_ : InputValue → Type_
  | .mk _ t _ _ => t

def InputValue.Default : InputValue → Option Literal
  | .mk _ _ v _ => v

def InputValue.Desc : InputValue → lexer.Description
  | .mk _ _ _ d => d

/-- Modelled from the spec: `Kind()` of each variant. -/
def typeKind : Type_ → String
  | .Scalar _ _ => "SCALAR"
  | .Object _ => "OBJECT"
  | .Interface _ => "INTERFACE"
  | .Union _ _ _ => "UNION"
  | .Enum _ _ _ => "ENUM"
  | .InputObject _ _ _ => "INPUT_OBJECT"
  | .List _ => "LIST"
  | .NonNull _ => "NON_NULL"

/-- Modelled from the spec: the interface `schema.NamedType` (`TypeName()` and
`Description()`), implemented by the six named variants and not by `List` and
`NonNull`. -/
structure NamedType where
  TypeName : String
  Description : String
  deriving DecidableEq, Repr

/-- The type assertion `typ.(schema.NamedType)`. -/
def asNamedType : Type_ → Option NamedType
  | .Scalar n d => some ⟨n, d.Text⟩
  | .Object o => some ⟨o.Name, o.Desc.Text⟩
  | .Interface i => some ⟨i.Name, i.Desc.Text⟩
  | .Union n _ d => some ⟨n, d.Text⟩
  | .Enum n _ d => some ⟨n, d.Text⟩
  | .InputObject n _ d => some ⟨n, d.Text⟩
  | .List _ => none
  | .NonNull _ => none

/-- Modelled from the spec: the Schema Model's named-type table.  (Its
directive and entry-point tables are not read by the code embedded here.) -/
structure Schema where
  Types : Go.Map Type_

end schema

namespace introspection

/-- `type Type struct { typ schema.Type }`; `typ` is an interface value and may
be `nil`. -/
structure Type_ where
  typ : Option schema.Type_

/-- `type Schema struct { schema *schema.Schema }`. -/
structure Schema where
  schema : schema.Schema

/-- `WrapSchema`. -/
def WrapSchema (schema : schema.Schema) : Schema := ⟨schema⟩

/-- `WrapType`. -/
def WrapType (typ : schema.Type_) : Type_ := ⟨some typ⟩

/-- `func (r *Schema) Types() []*Type`. -/
def Schema.Types (r : Schema) : List Type_ :=
  let names := Go.Map.rangeKeys r.schema.Types
  let names := Go.sortStrings names
  names.map (fun name => ⟨Go.Map.index r.schema.Types name⟩)

/-- `type Field struct { field *schema.Field }`. -/
structure Field where
  field : schema.Field

/-- `type InputValue struct { value *schema.InputValue }`. -/
structure InputValue where
  value : schema.InputValue

/-- `type EnumValue struct { value *schema.EnumValue }`. -/
structure EnumValue where
  value : schema.EnumValue

/-- `func (r *Type) Name() *string`. -/
def Type_.Name (r : Type_) : Option String :=
  match r.typ.bind schema.asNamedType with
  | some named => some named.TypeName
  | none => none

/-- `func (r *Type) Fields(args *struct{ IncludeDeprecated bool }) *[]*Field`:
the loop appends to `l` every field that passes the test. -/
def Type_.Fields (r : Type_) (IncludeDeprecated : Bool) : Option (List Field) :=
  let loop (fields : List schema.Field) : List Field :=
    fields.foldl
      (fun l f =>
        if (schema.DirectiveList.Get f.Directives "deprecated").isNone || IncludeDeprecated
        then l ++ [⟨f⟩] else l)
      []
  match r.typ with
  | some (.Object t) => some (loop t.Fields)
  | some (.Interface t) => some (loop t.Fields)
  | _ => none

/-- `func (r *Type) Interfaces() *[]*Type`. -/
def Type_.Interfaces (r : Type_) : Option (List Type_) :=
  match r.typ with
  | some (.Object t) => some (t.Interfaces.map (fun intf => ⟨some (.Interface intf)⟩))
  | _ => none

/-- `func (r *Type) PossibleTypes() *[]*Type`.  `sort.Slice` sorts the slice
stored in the schema type in place, so the call also yields the wrapper over
the type as it is afterwards (first component). -/
def Type_.PossibleTypes (r : Type_) : Type_ × Option (List Type_) :=
  match r.typ with
  | some (.Interface (.mk name ps fields desc)) =>
    let possibleTypes := Go.sortSlice (fun a b => Go.stringLess a.Name b.Name) ps
    (⟨some (.Interface (.mk name possibleTypes fields desc))⟩,
      some (possibleTypes.map (fun intf => ⟨some (.Object intf)⟩)))
  | some (.Union name ps desc) =>
    let possibleTypes := Go.sortSlice (fun a b => Go.stringLess a.Name b.Name) ps
    (⟨some (.Union name possibleTypes desc)⟩,
      some (possibleTypes.map (fun intf => ⟨some (.Object intf)⟩)))
  | _ => (r, none)

/-- `func (r *Type) EnumValues(args *struct{ IncludeDeprecated bool }) *[]*EnumValue`. -/
def Type_.EnumValues (r : Type_) (IncludeDeprecated : Bool) : Option (List EnumValue) :=
  match r.typ with
  | some (.Enum _ values _) =>
    some (values.foldl
      (fun l v =>
        if (schema.DirectiveList.Get v.Directives "deprecated").isNone || IncludeDeprecated
        then l ++ [⟨v⟩] else l)
      [])
  | _ => none

/-- `func (r *Type) InputFields() *[]*InputValue`. -/
def Type_.InputFields (r : Type_) : Option (List InputValue) :=
  match r.typ with
  | some (.InputObject _ fields _) => some (fields.map (fun v => ⟨v⟩))
  | _ => none

/-- `func (r *Type) OfType() *Type`. -/
def Type_.OfType (r : Type_) : Option Type_ :=
  match r.typ with
  | some (.List ofType) => some ⟨some ofType⟩
  | some (.NonNull ofType) => some ⟨some ofType⟩
  | _ => none

/-- `func (r *Field) Name() string`. -/
def Field.Name (r : Field) : String := r.field.Name

/-- `func (r *Field) IsDeprecated() bool`. -/
def Field.IsDeprecated (r : Field) : Bool :=
  (schema.DirectiveList.Get r.field.Directives "deprecated").isSome

/-- `func (r *Field) DeprecationReason() *string`. -/
def Field.DeprecationReason (r : Field) : Except Go.Fault (Option String) :=
  match schema.DirectiveList.Get r.field.Directives "deprecated" with
  | none => .ok none
  | some d =>
    match schema.ArgumentList.MustGet d.Args "reason" with
    | .error e => .error e
    | .ok value =>
      match value.EvaluateString with
      | .error e => .error e
      | .ok reason => .ok (some reason)

/-- `func (r *EnumValue) Name() string`. -/
def EnumValue.Name (r : EnumValue) : String := r.value.Name

/-- `func (r *EnumValue) IsDeprecated() bool`. -/
def EnumValue.IsDeprecated (r : EnumValue) : Bool :=
  (schema.DirectiveList.Get r.value.Directives "deprecated").isSome

/-- `func (r *EnumValue) DeprecationReason() *string`. -/
def EnumValue.DeprecationReason (r : EnumValue) : Except Go.Fault (Option String) :=
  match schema.DirectiveList.Get r.value.Directives "deprecated" with
  | none => .ok none
  | some d =>
    match schema.ArgumentList.MustGet d.Args "reason" with
    | .error e => .error e
    | .ok value =>
      match value.EvaluateString with
      | .error e => .error e
      | .ok reason => .ok (some reason)

/-- An entity carries a directive named `name`. -/
def carries (ds : List schema.Directive) (name : String) : Prop :=
  ∃ d ∈ ds, d.Name = name

instance (ds : List schema.Directive) (name : String) : Decidable (carries ds name) :=
  inferInstanceAs (Decidable (∃ d ∈ ds, d.Name = name))

/-- The directive `d` is the first one of `ds` that is named `name`. -/
def firstDirective (ds : List schema.Directive) (name : String) (d : schema.Directive) : Prop :=
  ∃ pre post, ds = pre ++ d :: post ∧ d.Name = name ∧ ∀ x ∈ pre, x.Name ≠ name

/-- The first argument of `args` that is named `name` has the value `value`. -/
def firstArgument (args : List schema.Argument) (name : String) (value : schema.Literal) :
    Prop :=
  ∃ pre post, args = pre ++ ⟨name, value⟩ :: post ∧ ∀ x ∈ pre, x.Name ≠ name

/-- The computation that `Field.DeprecationReason` and
`EnumValue.DeprecationReason` both perform on the attached directive list
(proof device; the two methods above are the embedding). -/
def reasonOf (ds : List schema.Directive) : Except Go.Fault (Option String) :=
  match schema.DirectiveList.Get ds "deprecated" with
  | none => .ok none
  | some d =>
    match schema.ArgumentList.MustGet d.Args "reason" with
    | .error e => .error e
    | .ok value =>
      match value.EvaluateString with
      | .error e => .error e
      | .ok reason => .ok (some reason)

/-- The enum value `A`, without directives. -/
def enumValueA : schema.EnumValue := ⟨"A", [], {}⟩

/-- The enum value `B @deprecated(reason: "use C")`. -/
def enumValueB : schema.EnumValue :=
  ⟨"B", [⟨"deprecated", [⟨"reason", .str "use C"⟩]⟩], {}⟩

/-- The enum type with the values `A` and `B`. -/
def enumAB : schema.Type_ := .Enum "E" [enumValueA, enumValueB] {}

/-- The directive `d` has an argument named `reason`, and the value of every
argument of `d` with that name is the string constant `s`. -/
def hasStringReason (d : schema.Directive) (s : String) : Prop :=
  (∃ a ∈ d.Args, a.Name = "reason") ∧ ∀ a ∈ d.Args, a.Name = "reason" → a.Value = .str s

/-- The precondition of the projector on deprecation: every directive named
`deprecated` in the attached directive list carries a `reason` argument whose
value is a string constant (deprecation reasons are literal constants). -/
def DeprecationWellFormed (ds : List schema.Directive) : Prop :=
  ∀ d ∈ ds, d.Name = "deprecated" → ∃ s, hasStringReason d s

/-- A field `f: Int @deprecated(reason: "use g")`. -/
def fieldDeprecated : Field :=
  ⟨.mk "f" [] (.Scalar "Int" {}) [⟨"deprecated", [⟨"reason", .str "use g"⟩]⟩] {}⟩

/-- A named-type table holding the scalars `Zebra`, `Apple` and `Mango`, in
that enumeration order. -/
def zebraAppleMango : schema.Schema :=
  ⟨[("Zebra", .Scalar "Zebra" {}), ("Apple", .Scalar "Apple" {}), ("Mango", .Scalar "Mango" {})]⟩

/-- The table of `zebraAppleMango` in another enumeration order. -/
def mangoZebraApple : schema.Schema :=
  ⟨[("Mango", .Scalar "Mango" {}), ("Zebra", .Scalar "Zebra" {}), ("Apple", .Scalar "Apple" {})]⟩

end introspection

namespace scanner

/-- Modelled from the spec: what `Scan` returns, a rune that is either one of
the token classes of package `scanner` (which is not in the sources) or, for
punctuation, the character itself. -/
inductive Rune where
  | EOF
  | Ident
  | Int
  | Float
  | String
  | BlockString
  | Char (c : Char)
  deriving DecidableEq, Repr

/-- Modelled from the spec: a token of the source text, as the Scanner
classifies it: its kind, its raw text and the position where it starts. -/
structure Token where
  kind : Rune
  text : String
  line : Int
  column : Int
  deriving DecidableEq, Repr

/-- Modelled from the spec: the Scanner, an external primitive.  Its state is
the cursor in the token sequence of the text (the tokens still to be scanned,
and where the text ends) together with the text and position of the token
scanned last. -/
structure Scanner where
  tokens : List Token
  endLine : Int
  endColumn : Int
  tokenText : String
  Line : Int
  Column : Int
  deriving DecidableEq, Repr

/-- Modelled from the spec: `Scan`, which reads the next token and returns its
kind, and returns `EOF` at the end of the text. -/
def Scanner.Scan (sc : Scanner) : Rune × Scanner :=
  match sc.tokens with
  | [] => (.EOF, { sc with tokenText := "", Line := sc.endLine, Column := sc.endColumn })
  | t :: rest =>
    (t.kind, { sc with tokens := rest, tokenText := t.text, Line := t.line, Column := t.column })

/-- Modelled from the spec: `TokenText`, the text of the token scanned last. -/
def Scanner.TokenText (sc : Scanner) : String := sc.tokenText

end scanner

namespace Go

/-- The formatting and quoting routines of the Go standard library and of the
scanner package that the lexer calls.  They are not part of the sources and
are taken as parameters. -/
structure Lib where
  /-- The verb `%q` applied to a string (`strconv.Quote`). -/
  Quote : String → String
  /-- `strconv.Unquote`: the un-escaped content, or the text of the error. -/
  Unquote : String → Except String String
  /-- The verb `%q` applied to a rune. -/
  QuoteRune : scanner.Rune → String
  /-- `scanner.TokenString`: a printable name of a token kind. -/
  TokenString : scanner.Rune → String
  /-- The verb `%s` applied to a location. -/
  FormatLocation : lexer.Location → String

/-- The verb `%q` applied to a slice of strings: the quoted elements, separated
by spaces, in square brackets. -/
def Lib.QuoteSlice (go : Lib) (xs : List String) : String :=
  "[" ++ " ".intercalate (xs.map go.Quote) ++ "]"

/-- A library for texts of letters and digits, on which quoting only adds the
surrounding double quotes and un-quoting removes them. -/
def plainLib : Lib where
  Quote := fun s => "\"" ++ s ++ "\""
  Unquote := fun s =>
    if 2 ≤ s.length ∧ s.front = '"' ∧ s.back = '"' ∧ '\\' ∉ s.data
    then .ok ((s.drop 1).dropRight 1) else .error "invalid syntax"
  QuoteRune := fun _ => "'?'"
  TokenString := fun _ => "token"
  FormatLocation := fun _ => "(line, column)"

/-- The text `part` occurs in the text `message`. -/
def occursIn (part message : String) : Prop := part.data <:+: message.data

end Go

namespace lexer

open scanner

/-- `type Lexer struct { sc *scanner.Scanner; next rune }`. -/
structure Lexer where
  sc : Scanner
  next : Rune
  deriving DecidableEq, Repr

/-- What a call that may panic leaves behind: its result or the fault raised,
and the lexer state at that moment. -/
abbrev Outcome (α : Type) := Except Go.Fault α × Lexer

/-- `NewLexer`, on the token sequence of the text: the lexer stands before the
first token and `next` is the zero rune. -/
def NewLexer (tokens : List Token) (endLine endColumn : Int) : Lexer :=
  { sc := { tokens := tokens, endLine := endLine, endColumn := endColumn,
            tokenText := "", Line := 0, Column := 0 },
    next := .Char (Char.ofNat 0) }

/-- `func (l *Lexer) Peek() rune`. -/
def Lexer.Peek (l : Lexer) : Rune := l.next

/-- `func (l *Lexer) Location() Location`. -/
def Lexer.Location (l : Lexer) : lexer.Location := ⟨l.sc.Line, l.sc.Column⟩

/-- The loop of `Consume`, run for at most `fuel` iterations: scan a token, and
go on while it is a comma. -/
def Lexer.consumeLoop : Nat → Lexer → Lexer
  | 0, l => l
  | fuel + 1, l =>
    let (next, sc) := l.sc.Scan
    let l : Lexer := { sc := sc, next := next }
    if l.next = .Char ',' then Lexer.consumeLoop fuel l else l

/-- `func (l *Lexer) Consume()`.  Every iteration but the last scans a comma, so
there are at most as many iterations as tokens left, plus one. -/
def Lexer.Consume (l : Lexer) : Lexer :=
  Lexer.consumeLoop (l.sc.tokens.length + 1) l

/-- `func (l *Lexer) SyntaxError(message string)`: the fault it raises. -/
def Lexer.SyntaxError (_l : Lexer) (message : String) : Go.Fault :=
  .syntaxError message

/-- `func (l *Lexer) ConsumeToken(expected rune)`. -/
def Lexer.ConsumeToken (go : Go.Lib) (l : Lexer) (expected : Rune) : Outcome Unit :=
  if l.next ≠ expected then
    (.error (l.SyntaxError
      ("unexpected " ++ go.Quote l.sc.TokenText ++ ", expecting " ++ go.TokenString expected)),
     l)
  else (.ok (), l.Consume)

/-- `func (l *Lexer) ConsumeIdent() string`. -/
def Lexer.ConsumeIdent (go : Go.Lib) (l : Lexer) : Outcome String :=
  let name := l.sc.TokenText
  match l.ConsumeToken go .Ident with
  | (.error e, l) => (.error e, l)
  | (.ok _, l) => (.ok name, l)

/-- `func (l *Lexer) ConsumeIdentWithLoc() (string, Location)`. -/
def Lexer.ConsumeIdentWithLoc (go : Go.Lib) (l : Lexer) :
    Outcome (String × lexer.Location) :=
  let loc := l.Location
  let name := l.sc.TokenText
  match l.ConsumeToken go .Ident with
  | (.error e, l) => (.error e, l)
  | (.ok _, l) => (.ok (name, loc), l)

/-- `func (l *Lexer) PeekKeyword(keyword string) bool`. -/
def Lexer.PeekKeyword (l : Lexer) (keyword : String) : Bool :=
  l.next = .Ident && l.sc.TokenText = keyword

/-- `func isOneOf(one string, of ...string) bool`. -/
def isOneOf (one : String) : List String → Bool
  | [] => false
  | v :: of => if one = v then true else isOneOf one of

/-- `func (l *Lexer) ConsumeKeyword(keywords ...string) string`. -/
def Lexer.ConsumeKeyword (go : Go.Lib) (l : Lexer) (keywords : List String) : Outcome String :=
  if l.next ≠ .Ident || !isOneOf l.sc.TokenText keywords then
    (.error (l.SyntaxError
      ("unexpected " ++ go.Quote l.sc.TokenText ++ ", expecting " ++ go.QuoteSlice keywords)),
     l)
  else
    let result := l.sc.TokenText
    (.ok result, l.Consume)

/-- `func (l *Lexer) ConsumeLiteral() string`. -/
def Lexer.ConsumeLiteral (go : Go.Lib) (l : Lexer) : Outcome String :=
  match l.next with
  | .Int | .Float | .String | .BlockString | .Ident =>
    let lit := l.sc.TokenText
    (.ok lit, l.Consume)
  | _ =>
    (.error (l.SyntaxError ("unexpected " ++ go.QuoteRune l.next ++ ", expecting literal")), l)

/-- `func (l *Lexer) ConsumeString() string`. -/
def Lexer.ConsumeString (go : Go.Lib) (l : Lexer) : Outcome String :=
  let loc := l.Location
  match go.Unquote l.sc.TokenText with
  | .error err =>
    (.error (.string
      ("Invalid string literal at " ++ go.FormatLocation loc ++ ": " ++ err ++ " ")), l)
  | .ok unquoted =>
    match l.ConsumeToken go .String with
    | (.error e, l) => (.error e, l)
    | (.ok _, l) => (.ok unquoted, l)

/-- `func (l *Lexer) ConsumeDescription() (d Description)`.  The slice
expression `text[3 : len(text)-3]` panics when the text has fewer than six
bytes. -/
def Lexer.ConsumeDescription (go : Go.Lib) (l : Lexer) : Outcome Description :=
  let d : Description := { Loc := l.Location }
  if l.Peek = .String then
    let d := { d with ShowType := .ShowStringDescription }
    match l.ConsumeString go with
    | (.error e, l) => (.error e, l)
    | (.ok text, l) => (.ok { d with Text := text }, l)
  else if l.Peek = .BlockString then
    let d := { d with ShowType := .ShowBlockDescription }
    let text := l.sc.TokenText
    if text.utf8ByteSize < 6 then
      (.error (.runtimeError "slice bounds out of range"), l)
    else
      let text := text.extract ⟨3⟩ ⟨text.utf8ByteSize - 3⟩
      match l.ConsumeToken go .BlockString with
      | (.error e, l) => (.error e, l)
      | (.ok _, l) => (.ok { d with Text := text }, l)
  else
    (.ok { d with ShowType := .NoDescription }, l)

/-- The tokens a caller sees in `n` rounds of `Consume()` followed by `Peek()`
and `TokenText()`. -/
def Lexer.observe : Nat → Lexer → List (Rune × String)
  | 0, _ => []
  | n + 1, l =>
    let l := l.Consume
    (l.Peek, l.sc.TokenText) :: Lexer.observe n l

/-- The token is a comma. -/
def isComma (t : Token) : Bool := t.kind = .Char ','

/-- The lexer state in which the cursor stands behind the first token at or
after the cursor of `l` that is not a comma, that token being the current one;
at the end of the text the current token is `EOF`. -/
def Lexer.atNextSignificant (l : Lexer) : Lexer :=
  match l.sc.tokens.dropWhile isComma with
  | [] => ⟨⟨[], l.sc.endLine, l.sc.endColumn, "", l.sc.endLine, l.sc.endColumn⟩, .EOF⟩
  | t :: rest => ⟨⟨rest, l.sc.endLine, l.sc.endColumn, t.text, t.line, t.column⟩, t.kind⟩

/-- The token sequence of the text `a, b,,c`. -/
def tokensABC : List Token :=
  [⟨.Ident, "a", 1, 1⟩, ⟨.Char ',', ",", 1, 2⟩, ⟨.Ident, "b", 1, 4⟩, ⟨.Char ',', ",", 1, 5⟩,
   ⟨.Char ',', ",", 1, 6⟩, ⟨.Ident, "c", 1, 7⟩]

/-- The token sequence of the text `"""doc""" type T { f: Int }`. -/
def tokensDocType : List Token :=
  [⟨.BlockString, "\"\"\"doc\"\"\"", 1, 1⟩, ⟨.Ident, "type", 1, 11⟩, ⟨.Ident, "T", 1, 16⟩,
   ⟨.Char (Char.ofNat 123), "\x7b", 1, 18⟩, ⟨.Ident, "f", 1, 20⟩, ⟨.Char ':', ":", 1, 21⟩,
   ⟨.Ident, "Int", 1, 23⟩, ⟨.Char (Char.ofNat 125), "\x7d", 1, 27⟩]

/-- The lexer on `"""doc""" type T { f: Int }`, primed by one `Consume()`: the
current token is the block string. -/
def lexerAtDoc : Lexer := (NewLexer tokensDocType 1 28).Consume

/-- A lexer whose current token is the identifier `union`. -/
def lexerAtUnion : Lexer :=
  (NewLexer [⟨.Ident, "union", 1, 1⟩, ⟨.Ident, "U", 1, 7⟩] 1 8).Consume

end lexer

namespace qerrors

/-- Modelled from the spec: the structured, located error `qerrors.QueryError`
that `qerrors.Errorf(format, args...).WithLocations(locs...)` builds: its
message is the formatted text and its locations are the given ones. -/
structure QueryError where
  Message : String
  Locations : List lexer.Location
  deriving DecidableEq, Repr

end qerrors

namespace lexer

open scanner

/-- `func (l *Lexer) CatchSyntaxError(f func()) (errRes error)`.  The body `f`
is a closure that drives the lexer; it is given as the function from the lexer
state before it runs to its outcome.  The deferred function recovers the
panic: a `syntaxError` becomes the returned error, located where the lexer
stands then, and any other value is raised again with `panic(err)`. -/
def Lexer.CatchSyntaxError {α : Type} (l : Lexer) (f : Lexer → Outcome α) :
    Except Go.Fault (Option qerrors.QueryError) × Lexer :=
  match f l with
  | (.ok _, l) => (.ok none, l)
  | (.error (.syntaxError err), l) =>
    (.ok (some ⟨"syntax error: " ++ err, [l.Location]⟩), l)
  | (.error err, l) => (.error err, l)

/-- A lexer whose current token is the string literal `"hi"`, followed by the
identifier `x`. -/
def lexerAtString : Lexer :=
  (NewLexer [⟨.String, "\"hi\"", 1, 1⟩, ⟨.Ident, "x", 1, 6⟩] 1 7).Consume

/-- A lexer whose current token is a String token with the raw text `"a\qb"`,
which is not a validly escaped literal. -/
def lexerAtBadString : Lexer :=
  (NewLexer [⟨.String, "\"a\\qb\"", 1, 1⟩, ⟨.Ident, "x", 1, 8⟩] 1 9).Consume

/-- A lexer whose current token is the identifier `foo`, followed by the
integer `42`. -/
def lexerAtFoo : Lexer :=
  (NewLexer [⟨.Ident, "foo", 1, 1⟩, ⟨.Int, "42", 1, 5⟩] 1 7).Consume

/-- A body that consumes two identifiers, one after the other. -/
def twoIdents (go : Go.Lib) (l : Lexer) : Outcome String :=
  match l.ConsumeIdent go with
  | (.error e, l) => (.error e, l)
  | (.ok _, l) => l.ConsumeIdent go

/-- A lexer whose current token is the integer `42`. -/
def lexerAtInt : Lexer := lexerAtFoo.Consume

end lexer

namespace schema

/-- Modelled from the spec: a directive declaration of the Schema Model. -/
structure DirectiveDecl where
  Name : String
  Desc : lexer.Description
  Locs : List String
  Args : List InputValue

end schema

namespace introspection

/-- `type Directive struct { directive *schema.DirectiveDecl }`. -/
structure Directive where
  directive : schema.DirectiveDecl

/-- `func (r *Type) Kind() string`: the method call on a `nil` interface value
faults. -/
def Type_.Kind (r : Type_) : Except Go.Fault String :=
  match r.typ with
  | some typ => .ok (schema.typeKind typ)
  | none => .error (.runtimeError "invalid memory address or nil pointer dereference")

/-- `func (r *Type) Description() *string`. -/
def Type_.Description (r : Type_) : Option String :=
  match r.typ.bind schema.asNamedType with
  | some named =>
    let desc := named.Description
    if desc = "" then none else some desc
  | none => none

/-- `func Description(desc schema.Description) *string`. -/
def Description (desc : lexer.Description) : Option String :=
  if desc.ShowType = .NoDescription then none
  else
    if desc.ShowType = .PossibleDescription then
      if desc.Text = "" then none else some desc.Text
    else some desc.Text

/-- `func (r *Field) Description() *string`. -/
def Field.Description (r : Field) : Option String :=
  introspection.Description r.field.Desc

/-- `func (r *InputValue) Description() *string`. -/
def InputValue.Description (r : InputValue) : Option String :=
  introspection.Description r.value.Desc

/-- `func (r *EnumValue) Description() *string`. -/
def EnumValue.Description (r : EnumValue) : Option String :=
  introspection.Description r.value.Desc

/-- `func (r *Directive) Description() *string`. -/
def Directive.Description (r : Directive) : Option String :=
  introspection.Description r.directive.Desc

/-- The type `NonNull{ofType: List{ofType: Scalar("String")}}`. -/
def nonNullListString : schema.Type_ := .NonNull (.List (.Scalar "String" {}))

/-- One level of wrapping of a type reference: `List{ofType: _}` or
`NonNull{ofType: _}`. -/
inductive Wrapping where
  | list
  | nonNull
  deriving DecidableEq, Repr

/-- The type reference with one more level of wrapping. -/
def Wrapping.apply : Wrapping → schema.Type_ → schema.Type_
  | .list, t => .List t
  | .nonNull, t => .NonNull t

/-- The kind of a level of wrapping. -/
def Wrapping.kind : Wrapping → String
  | .list => "LIST"
  | .nonNull => "NON_NULL"

/-- The type reference `t` under the levels of wrapping `ws`, outermost
first. -/
def wrapAll (ws : List Wrapping) (t : schema.Type_) : schema.Type_ :=
  ws.foldr Wrapping.apply t

/-- `n` successive calls of `OfType()`; absent as soon as one of them is. -/
def ofTypeN : Nat → Type_ → Option Type_
  | 0, r => some r
  | n + 1, r => r.OfType.bind (ofTypeN n)

/-- The object type `Zebra`, without interfaces and fields. -/
def objectZebra : schema.Object := .mk "Zebra" [] [] {}

/-- The object type `Apple`, without interfaces and fields. -/
def objectApple : schema.Object := .mk "Apple" [] [] {}

/-- An interface whose possible types are declared in the order
`Zebra, Apple`. -/
def interfaceZebraApple : schema.Type_ :=
  .Interface (.mk "Fruit" [objectZebra, objectApple] [] {})

/-- A union whose member types are declared in the order `Zebra, Apple`. -/
def unionZebraApple : schema.Type_ := .Union "Either" [objectZebra, objectApple] {}

/-- The names of the possible types that the wrapped Interface or Union
stores, in stored order. -/
def storedPossibleTypes (r : Type_) : List String :=
  match r.typ with
  | some (.Interface i) => i.PossibleTypes.map schema.Object.Name
  | some (.Union _ ps _) => ps.map schema.Object.Name
  | _ => []

end introspection

/-! ## Theorems -/

namespace Go

theorem stringLess_irrefl (a : String) : ¬ stringLess a a := lt_irrefl a.data

theorem stringLess_trans {a b c : String} (h₁ : stringLess a b) (h₂ : stringLess b c) :
    stringLess a c := lt_trans (α := List Char) h₁ h₂

theorem stringLE_total (a b : String) : stringLE a b ∨ stringLE b a := by
  unfold stringLE stringLess
  rcases lt_or_le a.data b.data with h | h
  · exact Or.inl (not_lt.mpr h.le)
  · exact Or.inr (not_lt.mpr h)

theorem stringLE_trans {a b c : String} (h₁ : stringLE a b) (h₂ : stringLE b c) :
    stringLE a c := by
  unfold stringLE stringLess at *
  exact not_lt.mpr (le_trans (not_lt.mp h₁) (not_lt.mp h₂))

theorem stringLE_antisymm {a b : String} (h₁ : stringLE a b) (h₂ : stringLE b a) : a = b := by
  unfold stringLE stringLess at *
  exact String.ext (le_antisymm (not_lt.mp h₁) (not_lt.mp h₂))

theorem stringLess_of_LE_of_ne {a b : String} (h : stringLE a b) (hne : a ≠ b) :
    stringLess a b := by
  unfold stringLE stringLess at *
  rcases lt_or_eq_of_le (not_lt.mp h) with h' | h'
  · exact h'
  · exact absurd (String.ext h') hne

instance : IsTotal String stringLE := ⟨stringLE_total⟩

instance : IsTrans String stringLE := ⟨fun _ _ _ => stringLE_trans⟩

instance : IsAntisymm String stringLE := ⟨fun _ _ => stringLE_antisymm⟩

theorem sortStrings_perm (names : List String) : (sortStrings names).Perm names :=
  List.perm_insertionSort _ _

theorem sortStrings_sorted (names : List String) :
    (sortStrings names).Pairwise stringLE :=
  List.sorted_insertionSort _ _

/-- On distinct names the result of `sort.Strings` is strictly increasing. -/
theorem sortStrings_strict {names : List String} (h : names.Nodup) :
    (sortStrings names).Pairwise stringLess := by
  have hs := sortStrings_sorted names
  have hn : (sortStrings names).Nodup := (sortStrings_perm names).nodup_iff.mpr h
  exact (hs.and hn).imp (fun hab => stringLess_of_LE_of_ne hab.1 hab.2)

/-- The result of `sort.Strings` depends only on which names are given, not on
their order. -/
theorem sortStrings_congr {l₁ l₂ : List String} (h : l₁.Perm l₂) :
    sortStrings l₁ = sortStrings l₂ :=
  List.eq_of_perm_of_sorted
    (((sortStrings_perm l₁).trans h).trans (sortStrings_perm l₂).symm)
    (sortStrings_sorted l₁) (sortStrings_sorted l₂)

/-- In a map, indexing with the key of an entry yields the entry's value. -/
theorem Map.index_of_mem {V : Type} :
    ∀ {m : Map V}, Map.WF m → ∀ {k : String} {v : V}, (k, v) ∈ m → Map.index m k = some v
  | [], _, _, _, h => by simp at h
  | (k', v') :: m, hwf, k, v, h => by
    have hwf' : (k' ∉ m.map Prod.fst) ∧ Map.WF m := by
      simpa [Map.WF] using hwf
    simp only [List.mem_cons, Prod.mk.injEq] at h
    rcases h with ⟨rfl, rfl⟩ | h
    · simp [Map.index, List.lookup]
    · have hne : k ≠ k' := by
        rintro rfl
        exact hwf'.1 (List.mem_map.mpr ⟨(k, v), h, rfl⟩)
      have ih := Map.index_of_mem hwf'.2 h
      have hb : (k == k') = false := by simpa using hne
      simp only [Map.index] at ih ⊢
      simp [List.lookup, hb, ih]

end Go

namespace introspection

/-- C1: for a schema whose named-type table has distinct keys, `Types()` is the
list of wrappers of the table's entries rearranged so that the names are
strictly increasing: it is a rearrangement `es` of the entries (so no type is
missing and none is duplicated) mapped to wrappers; the result is the same for
every other enumeration order `s'` of the table; and the types
`Zebra, Apple, Mango` come out as `Apple, Mango, Zebra`. -/
theorem Schema.Types_sorted_by_name (s s' : schema.Schema) (hwf : Go.Map.WF s.Types)
    (hperm : s'.Types.Perm s.Types) :
    (∃ es : List (String × schema.Type_),
        es.Perm s.Types ∧ (es.map Prod.fst).Pairwise Go.stringLess ∧
        (WrapSchema s).Types = es.map (fun e => WrapType e.2)) ∧
      (WrapSchema s').Types = (WrapSchema s).Types ∧
      (WrapSchema zebraAppleMango).Types =
        [WrapType (.Scalar "Apple" {}), WrapType (.Scalar "Mango" {}),
          WrapType (.Scalar "Zebra" {})] := by
  have key : ∀ t : schema.Schema, Go.Map.WF t.Types →
      (WrapSchema t).Types =
        (t.Types.insertionSort (fun a b => Go.stringLE a.1 b.1)).map
          (fun e => WrapType e.2) ∧
      Go.sortStrings (Go.Map.rangeKeys t.Types) =
        (t.Types.insertionSort (fun a b => Go.stringLE a.1 b.1)).map Prod.fst := by
    intro t ht
    have hp := List.perm_insertionSort (fun a b : String × schema.Type_ => Go.stringLE a.1 b.1)
      t.Types
    have hsorted : ((t.Types.insertionSort (fun a b => Go.stringLE a.1 b.1)).map
        Prod.fst).Pairwise Go.stringLE := by
      rw [List.pairwise_map]
      haveI : IsTotal (String × schema.Type_) (fun a b => Go.stringLE a.1 b.1) :=
        ⟨fun a b => Go.stringLE_total a.1 b.1⟩
      haveI : IsTrans (String × schema.Type_) (fun a b => Go.stringLE a.1 b.1) :=
        ⟨fun _ _ _ => Go.stringLE_trans⟩
      exact List.sorted_insertionSort _ _
    have hnames : Go.sortStrings (Go.Map.rangeKeys t.Types) =
        (t.Types.insertionSort (fun a b => Go.stringLE a.1 b.1)).map Prod.fst :=
      List.eq_of_perm_of_sorted
        ((Go.sortStrings_perm _).trans (hp.map Prod.fst).symm)
        (Go.sortStrings_sorted _) hsorted
    refine ⟨?_, hnames⟩
    simp only [Schema.Types, WrapSchema, hnames, List.map_map]
    apply List.map_congr_left
    intro e he
    have hmem : (e.1, e.2) ∈ t.Types := hp.subset he
    simp [WrapType, Go.Map.index_of_mem ht hmem]
  have hwf' : Go.Map.WF s'.Types := (hperm.map Prod.fst).nodup_iff.mpr hwf
  obtain ⟨hs, hn⟩ := key s hwf
  obtain ⟨hs', hn'⟩ := key s' hwf'
  refine ⟨⟨_, List.perm_insertionSort _ _, ?_, hs⟩, ?_, ?_⟩
  · rw [← hn]
    exact Go.sortStrings_strict hwf
  · have hkeys : Go.sortStrings (Go.Map.rangeKeys s'.Types) =
        Go.sortStrings (Go.Map.rangeKeys s.Types) :=
      Go.sortStrings_congr (hperm.map Prod.fst)
    simp only [Schema.Types, WrapSchema, hkeys]
    apply List.map_congr_left
    intro name hname
    have hk : name ∈ s.Types.map Prod.fst := (Go.sortStrings_perm _).subset hname
    obtain ⟨e, he, rfl⟩ := List.mem_map.mp hk
    have h1 : (e.1, e.2) ∈ s.Types := he
    have h2 : (e.1, e.2) ∈ s'.Types := hperm.symm.subset he
    rw [Go.Map.index_of_mem hwf h1, Go.Map.index_of_mem hwf' h2]
  · rfl

/-- C1 at the table `Zebra, Apple, Mango` and its enumeration
`Mango, Zebra, Apple`. -/
theorem Schema.Types_sorted_by_name_witness :
    Go.Map.WF zebraAppleMango.Types ∧ mangoZebraApple.Types.Perm zebraAppleMango.Types ∧
      (WrapSchema mangoZebraApple).Types = (WrapSchema zebraAppleMango).Types :=
  have hwf : Go.Map.WF zebraAppleMango.Types := by
    simp [Go.Map.WF, zebraAppleMango]
  have hperm : mangoZebraApple.Types.Perm zebraAppleMango.Types := by
    simp only [mangoZebraApple, zebraAppleMango]
    exact (List.Perm.swap _ _ _).trans (List.Perm.cons _ (List.Perm.swap _ _ _))
  ⟨hwf, hperm, (Schema.Types_sorted_by_name zebraAppleMango mangoZebraApple hwf hperm).2.1⟩

end introspection

namespace schema

theorem DirectiveList.Get_isSome_iff (ds : List Directive) (name : String) :
    (DirectiveList.Get ds name).isSome = true ↔ ∃ d ∈ ds, d.Name = name := by
  induction ds with
  | nil => simp [DirectiveList.Get]
  | cons d l ih =>
    by_cases h : d.Name = name
    · simp [DirectiveList.Get, h]
    · simp [DirectiveList.Get, h, ih]

theorem DirectiveList.Get_isNone_iff (ds : List Directive) (name : String) :
    (DirectiveList.Get ds name).isNone = true ↔ ¬ ∃ d ∈ ds, d.Name = name := by
  rw [← DirectiveList.Get_isSome_iff]
  cases DirectiveList.Get ds name <;> simp

end schema

namespace Go

/-- A loop that appends the image of every element passing a test computes a
filter followed by a map. -/
theorem foldl_append_eq_filter_map {α β : Type} (p : α → Bool) (g : α → β) (xs : List α) :
    ∀ init : List β,
      xs.foldl (fun l x => if p x = true then l ++ [g x] else l) init =
        init ++ (xs.filter p).map g := by
  induction xs with
  | nil => intro init; simp
  | cons x xs ih =>
    intro init
    by_cases h : p x = true
    · simp [List.foldl, h, ih]
    · simp [List.foldl, h, ih]

end Go

namespace introspection

theorem fieldsLoop_eq (fields : List schema.Field) (inc : Bool) :
    fields.foldl
        (fun l f =>
          if (schema.DirectiveList.Get f.Directives "deprecated").isNone || inc
          then l ++ [(⟨f⟩ : Field)] else l)
        [] =
      (fields.filter
        (fun f => (schema.DirectiveList.Get f.Directives "deprecated").isNone || inc)).map
        Field.mk := by
  have h := Go.foldl_append_eq_filter_map
    (fun f : schema.Field => (schema.DirectiveList.Get f.Directives "deprecated").isNone || inc)
    Field.mk fields []
  simpa using h

theorem enumValuesLoop_eq (values : List schema.EnumValue) (inc : Bool) :
    values.foldl
        (fun l v =>
          if (schema.DirectiveList.Get v.Directives "deprecated").isNone || inc
          then l ++ [(⟨v⟩ : EnumValue)] else l)
        [] =
      (values.filter
        (fun v => (schema.DirectiveList.Get v.Directives "deprecated").isNone || inc)).map
        EnumValue.mk := by
  have h := Go.foldl_append_eq_filter_map
    (fun v : schema.EnumValue =>
      (schema.DirectiveList.Get v.Directives "deprecated").isNone || inc)
    EnumValue.mk values []
  simpa using h

theorem filter_not_deprecated {α : Type} (dirs : α → List schema.Directive) (xs : List α) :
    xs.filter (fun x => (schema.DirectiveList.Get (dirs x) "deprecated").isNone || false) =
      xs.filter (fun x => decide (¬ carries (dirs x) "deprecated")) := by
  apply List.filter_congr
  intro x _
  have h := schema.DirectiveList.Get_isNone_iff (dirs x) "deprecated"
  by_cases hc : carries (dirs x) "deprecated"
  · have : ¬ (schema.DirectiveList.Get (dirs x) "deprecated").isNone = true :=
      fun hn => (h.mp hn) hc
    simp [hc, this]
  · have : (schema.DirectiveList.Get (dirs x) "deprecated").isNone = true := h.mpr hc
    simp [hc, this]

/-- C2: for a type of any of the eight variants, each variant-specific accessor
of its wrapper yields a value exactly on the variants it applies to and yields
absent on all others: `Name()` on the named variants (all but `LIST` and
`NON_NULL`), `Fields()` on `OBJECT` and `INTERFACE`, `Interfaces()` on
`OBJECT`, `PossibleTypes()` on `INTERFACE` and `UNION`, `EnumValues()` on
`ENUM`, `InputFields()` on `INPUT_OBJECT`, `OfType()` on `LIST` and
`NON_NULL`.  The accessors are total: none of them can fault. -/
theorem Type_.accessor_defined_iff_applicable (t : schema.Type_) (includeDeprecated : Bool) :
    schema.typeKind t ∈
        ["SCALAR", "OBJECT", "INTERFACE", "UNION", "ENUM", "INPUT_OBJECT", "LIST", "NON_NULL"] ∧
      ((WrapType t).Name.isSome = true ↔
        (schema.typeKind t ≠ "LIST" ∧ schema.typeKind t ≠ "NON_NULL")) ∧
      (((WrapType t).Fields includeDeprecated).isSome = true ↔
        (schema.typeKind t = "OBJECT" ∨ schema.typeKind t = "INTERFACE")) ∧
      ((WrapType t).Interfaces.isSome = true ↔ schema.typeKind t = "OBJECT") ∧
      ((WrapType t).PossibleTypes.2.isSome = true ↔
        (schema.typeKind t = "INTERFACE" ∨ schema.typeKind t = "UNION")) ∧
      (((WrapType t).EnumValues includeDeprecated).isSome = true ↔
        schema.typeKind t = "ENUM") ∧
      ((WrapType t).InputFields.isSome = true ↔ schema.typeKind t = "INPUT_OBJECT") ∧
      ((WrapType t).OfType.isSome = true ↔
        (schema.typeKind t = "LIST" ∨ schema.typeKind t = "NON_NULL")) := by
  cases t with
  | Scalar n d =>
    simp [WrapType, schema.typeKind, Type_.Name, Type_.Fields, Type_.Interfaces,
      Type_.PossibleTypes, Type_.EnumValues, Type_.InputFields, Type_.OfType,
      schema.asNamedType]
  | Object o =>
    simp [WrapType, schema.typeKind, Type_.Name, Type_.Fields, Type_.Interfaces,
      Type_.PossibleTypes, Type_.EnumValues, Type_.InputFields, Type_.OfType,
      schema.asNamedType]
  | Interface i =>
    cases i
    simp [WrapType, schema.typeKind, Type_.Name, Type_.Fields, Type_.Interfaces,
      Type_.PossibleTypes, Type_.EnumValues, Type_.InputFields, Type_.OfType,
      schema.asNamedType]
  | Union n ps d =>
    simp [WrapType, schema.typeKind, Type_.Name, Type_.Fields, Type_.Interfaces,
      Type_.PossibleTypes, Type_.EnumValues, Type_.InputFields, Type_.OfType,
      schema.asNamedType]
  | Enum n vs d =>
    simp [WrapType, schema.typeKind, Type_.Name, Type_.Fields, Type_.Interfaces,
      Type_.PossibleTypes, Type_.EnumValues, Type_.InputFields, Type_.OfType,
      schema.asNamedType]
  | InputObject n fs d =>
    simp [WrapType, schema.typeKind, Type_.Name, Type_.Fields, Type_.Interfaces,
      Type_.PossibleTypes, Type_.EnumValues, Type_.InputFields, Type_.OfType,
      schema.asNamedType]
  | List t =>
    simp [WrapType, schema.typeKind, Type_.Name, Type_.Fields, Type_.Interfaces,
      Type_.PossibleTypes, Type_.EnumValues, Type_.InputFields, Type_.OfType,
      schema.asNamedType]
  | NonNull t =>
    simp [WrapType, schema.typeKind, Type_.Name, Type_.Fields, Type_.Interfaces,
      Type_.PossibleTypes, Type_.EnumValues, Type_.InputFields, Type_.OfType,
      schema.asNamedType]

end introspection

namespace introspection

/-- C3: on an Object and on an Interface, `Fields(includeDeprecated=false)` is
the declared field list from which every field carrying a directive named
`deprecated` is removed, the others keeping their order, and
`Fields(includeDeprecated=true)` is the whole declared field list in
declaration order. -/
theorem Type_.Fields_filters_deprecated (o : schema.Object) (i : schema.Interface) :
    (WrapType (.Object o)).Fields false =
        some ((o.Fields.filter
          (fun f => decide (¬ carries f.Directives "deprecated"))).map Field.mk) ∧
      (WrapType (.Object o)).Fields true = some (o.Fields.map Field.mk) ∧
      (WrapType (.Interface i)).Fields false =
        some ((i.Fields.filter
          (fun f => decide (¬ carries f.Directives "deprecated"))).map Field.mk) ∧
      (WrapType (.Interface i)).Fields true = some (i.Fields.map Field.mk) := by
  refine ⟨?_, ?_, ?_, ?_⟩
  · simp only [Type_.Fields, WrapType, fieldsLoop_eq]
    rw [filter_not_deprecated schema.Field.Directives]
  · simp only [Type_.Fields, WrapType, fieldsLoop_eq]
    simp
  · simp only [Type_.Fields, WrapType, fieldsLoop_eq]
    rw [filter_not_deprecated schema.Field.Directives]
  · simp only [Type_.Fields, WrapType, fieldsLoop_eq]
    simp

/-- C4: on an Enum, `EnumValues(includeDeprecated=false)` is the list of the
declared values that carry no directive named `deprecated`, in declaration
order, and `EnumValues(includeDeprecated=true)` is the list of all declared
values in declaration order; for the values `A` and
`B @deprecated(reason: "use C")` the results are `[A]` and `[A, B]`. -/
theorem Type_.EnumValues_filters_deprecated (name : String)
    (values : List schema.EnumValue) (desc : lexer.Description) :
    (WrapType (.Enum name values desc)).EnumValues false =
        some ((values.filter
          (fun v => decide (¬ carries v.Directives "deprecated"))).map EnumValue.mk) ∧
      (WrapType (.Enum name values desc)).EnumValues true = some (values.map EnumValue.mk) ∧
      (WrapType enumAB).EnumValues false = some [⟨enumValueA⟩] ∧
      (WrapType enumAB).EnumValues true = some [⟨enumValueA⟩, ⟨enumValueB⟩] := by
  refine ⟨?_, ?_, ?_, ?_⟩
  · simp only [Type_.EnumValues, WrapType, enumValuesLoop_eq]
    rw [filter_not_deprecated schema.EnumValue.Directives]
  · simp only [Type_.EnumValues, WrapType, enumValuesLoop_eq]
    simp
  · rfl
  · rfl

theorem sortSlice_byName_perm (ps : List schema.Object) :
    (Go.sortSlice (fun a b : schema.Object => Go.stringLess a.Name b.Name) ps).Perm ps :=
  List.perm_insertionSort _ _

theorem sortSlice_byName_sorted (ps : List schema.Object) :
    (Go.sortSlice (fun a b : schema.Object => Go.stringLess a.Name b.Name) ps).Pairwise
      (fun a b => Go.stringLE a.Name b.Name) := by
  haveI : IsTotal schema.Object (fun a b => ¬ Go.stringLess b.Name a.Name) :=
    ⟨fun a b => Go.stringLE_total a.Name b.Name⟩
  haveI : IsTrans schema.Object (fun a b => ¬ Go.stringLess b.Name a.Name) :=
    ⟨fun _ _ _ h₁ h₂ => Go.stringLE_trans h₁ h₂⟩
  exact List.sorted_insertionSort (fun a b : schema.Object => ¬ Go.stringLess b.Name a.Name) ps

/-- C5: on an Interface and on a Union, `PossibleTypes()` is the list of
wrappers of a rearrangement of the declared possible object types (one wrapper
for each of them) in which the object names are in ascending order. -/
theorem Type_.PossibleTypes_sorted_perm (i : schema.Interface) (name : String)
    (members : List schema.Object) (desc : lexer.Description) :
    (∃ os : List schema.Object,
        os.Perm i.PossibleTypes ∧ os.Pairwise (fun a b => Go.stringLE a.Name b.Name) ∧
        (WrapType (.Interface i)).PossibleTypes.2 =
          some (os.map (fun o => WrapType (.Object o)))) ∧
      (∃ os : List schema.Object,
        os.Perm members ∧ os.Pairwise (fun a b => Go.stringLE a.Name b.Name) ∧
        (WrapType (.Union name members desc)).PossibleTypes.2 =
          some (os.map (fun o => WrapType (.Object o)))) := by
  constructor
  · cases i with
    | mk n ps fs d =>
      exact ⟨_, sortSlice_byName_perm ps, sortSlice_byName_sorted ps, rfl⟩
  · exact ⟨_, sortSlice_byName_perm members, sortSlice_byName_sorted members, rfl⟩

end introspection

namespace schema

theorem DirectiveList.Get_eq_some_iff_first (ds : List Directive) (name : String) (d : Directive) :
    DirectiveList.Get ds name = some d ↔ introspection.firstDirective ds name d := by
  induction ds with
  | nil => simp [DirectiveList.Get, introspection.firstDirective]
  | cons x l ih =>
    by_cases h : x.Name = name
    · simp only [DirectiveList.Get, h, if_true, Option.some.injEq]
      constructor
      · rintro rfl
        exact ⟨[], l, rfl, h, by simp⟩
      · rintro ⟨pre, post, heq, _, hpre⟩
        cases pre with
        | nil => exact (List.cons.inj heq).1
        | cons y pre =>
          have hy : x = y := by simpa using (List.cons.inj heq).1
          exact absurd (hy ▸ h) (hpre y (by simp))
    · simp only [DirectiveList.Get, h, if_false, ih]
      constructor
      · rintro ⟨pre, post, heq, hd, hpre⟩
        refine ⟨x :: pre, post, by simp [heq], hd, ?_⟩
        intro y hy
        rcases List.mem_cons.mp hy with rfl | hy
        · exact h
        · exact hpre y hy
      · rintro ⟨pre, post, heq, hd, hpre⟩
        cases pre with
        | nil =>
          have hx : x = d := by simpa using (List.cons.inj heq).1
          exact absurd (hx ▸ hd) h
        | cons y pre =>
          refine ⟨pre, post, (List.cons.inj heq).2, hd, ?_⟩
          intro z hz
          exact hpre z (List.mem_cons_of_mem _ hz)

theorem ArgumentList.Get_eq_some_iff_firstArgument (args : List Argument) (name : String) (v : Literal) :
    ArgumentList.Get args name = some v ↔ introspection.firstArgument args name v := by
  induction args with
  | nil => simp [ArgumentList.Get, introspection.firstArgument]
  | cons x l ih =>
    by_cases h : x.Name = name
    · simp only [ArgumentList.Get, h, if_true, Option.some.injEq]
      constructor
      · rintro rfl
        refine ⟨[], l, ?_, by simp⟩
        cases x
        simp at h
        simp [h]
      · rintro ⟨pre, post, heq, hpre⟩
        cases pre with
        | nil =>
          have hx : x = ⟨name, v⟩ := by simpa using (List.cons.inj heq).1
          rw [hx]
        | cons y pre =>
          have hy : x = y := by simpa using (List.cons.inj heq).1
          exact absurd (hy ▸ h) (hpre y (by simp))
    · simp only [ArgumentList.Get, h, if_false, ih]
      constructor
      · rintro ⟨pre, post, heq, hpre⟩
        refine ⟨x :: pre, post, by simp [heq], ?_⟩
        intro y hy
        rcases List.mem_cons.mp hy with rfl | hy
        · exact h
        · exact hpre y hy
      · rintro ⟨pre, post, heq, hpre⟩
        cases pre with
        | nil =>
          have hx : x = ⟨name, v⟩ := by simpa using (List.cons.inj heq).1
          exact absurd (by rw [hx]) h
        | cons y pre =>
          refine ⟨pre, post, (List.cons.inj heq).2, ?_⟩
          intro z hz
          exact hpre z (List.mem_cons_of_mem _ hz)

end schema

namespace introspection

theorem reasonOf_eq_none_iff (ds : List schema.Directive) :
    reasonOf ds = .ok none ↔ (schema.DirectiveList.Get ds "deprecated").isSome = false := by
  unfold reasonOf
  cases schema.DirectiveList.Get ds "deprecated" with
  | none => simp
  | some d =>
    simp only [Option.isSome_some]
    cases schema.ArgumentList.MustGet d.Args "reason" with
    | error e => simp
    | ok value =>
      cases value with
      | str s => simp [schema.Literal.EvaluateString]
      | other t => simp [schema.Literal.EvaluateString]

theorem reasonOf_eq_some_iff (ds : List schema.Directive) (s : String) :
    reasonOf ds = .ok (some s) ↔
      ∃ d, firstDirective ds "deprecated" d ∧ firstArgument d.Args "reason" (.str s) := by
  simp only [← schema.DirectiveList.Get_eq_some_iff_first, ← schema.ArgumentList.Get_eq_some_iff_firstArgument]
  unfold reasonOf
  cases schema.DirectiveList.Get ds "deprecated" with
  | none => simp
  | some d =>
    simp only [Option.some.injEq, exists_eq_left', schema.ArgumentList.MustGet]
    cases schema.ArgumentList.Get d.Args "reason" with
    | none => simp
    | some value =>
      cases value with
      | str s' => simp [schema.Literal.EvaluateString]
      | other t => simp [schema.Literal.EvaluateString]

theorem reasonOf_fault_iff (ds : List schema.Directive) :
    (∃ e, reasonOf ds = .error e) ↔
      ∃ d, firstDirective ds "deprecated" d ∧
        ¬ ∃ s, firstArgument d.Args "reason" (.str s) := by
  simp only [← schema.DirectiveList.Get_eq_some_iff_first, ← schema.ArgumentList.Get_eq_some_iff_firstArgument]
  unfold reasonOf
  cases schema.DirectiveList.Get ds "deprecated" with
  | none => simp
  | some d =>
    simp only [Option.some.injEq, exists_eq_left', schema.ArgumentList.MustGet]
    cases schema.ArgumentList.Get d.Args "reason" with
    | none => simp
    | some value =>
      cases value with
      | str s' => simp [schema.Literal.EvaluateString]
      | other t => simp [schema.Literal.EvaluateString]

end introspection

namespace introspection

theorem Field.deprecationReason_eq_reasonOf (f : Field) :
    f.DeprecationReason = reasonOf f.field.Directives := rfl

theorem EnumValue.deprecationReason_value_eq_reasonOf (v : EnumValue) :
    v.DeprecationReason = reasonOf v.value.Directives := rfl

theorem mem_of_firstDirective {ds : List schema.Directive} {name : String}
    {d : schema.Directive} (h : firstDirective ds name d) : d ∈ ds ∧ d.Name = name := by
  obtain ⟨pre, post, heq, hname, _⟩ := h
  exact ⟨by rw [heq]; simp, hname⟩

theorem argumentGet_of_all (name : String) (value : schema.Literal) :
    ∀ args : List schema.Argument, (∃ a ∈ args, a.Name = name) →
      (∀ a ∈ args, a.Name = name → a.Value = value) →
      schema.ArgumentList.Get args name = some value
  | [], h, _ => by
    obtain ⟨a, ha, _⟩ := h
    simp at ha
  | x :: args, h, hall => by
    by_cases hx : x.Name = name
    · have hv : x.Value = value := hall x (by simp) hx
      simp [schema.ArgumentList.Get, hx, hv]
    · have h' : ∃ a ∈ args, a.Name = name := by
        obtain ⟨a, ha, han⟩ := h
        rcases List.mem_cons.mp ha with rfl | ha
        · exact absurd han hx
        · exact ⟨a, ha, han⟩
      have ih := argumentGet_of_all name value args h'
        (fun a ha => hall a (List.mem_cons_of_mem _ ha))
      simp [schema.ArgumentList.Get, hx, ih]

theorem argumentGet_of_hasStringReason {d : schema.Directive} {s : String}
    (h : hasStringReason d s) : schema.ArgumentList.Get d.Args "reason" = some (.str s) :=
  argumentGet_of_all "reason" (.str s) d.Args h.1 h.2

/-- Under the precondition, the first `reason` argument of a directive named
`deprecated` is the string `s` iff `s` is the value of its `reason`
argument. -/
theorem firstArgument_iff_hasStringReason {ds : List schema.Directive}
    (hwf : DeprecationWellFormed ds) {d : schema.Directive}
    (hd : firstDirective ds "deprecated" d) (s : String) :
    firstArgument d.Args "reason" (.str s) ↔ hasStringReason d s := by
  obtain ⟨hmem, hname⟩ := mem_of_firstDirective hd
  obtain ⟨s', hs'⟩ := hwf d hmem hname
  have hget := argumentGet_of_hasStringReason hs'
  rw [← schema.ArgumentList.Get_eq_some_iff_firstArgument, hget]
  constructor
  · intro h
    have hss : s' = s := by simpa using h
    exact hss ▸ hs'
  · intro h
    have hget' := argumentGet_of_hasStringReason h
    rw [hget] at hget'
    exact hget'

theorem reasonOf_wellFormed (ds : List schema.Directive) (hwf : DeprecationWellFormed ds) :
    ((∃ s, reasonOf ds = .ok (some s)) ↔
        (schema.DirectiveList.Get ds "deprecated").isSome = true) ∧
      (∀ s, reasonOf ds = .ok (some s) ↔
        ∃ d, firstDirective ds "deprecated" d ∧ hasStringReason d s) := by
  have hsome : ∀ s, reasonOf ds = .ok (some s) ↔
      ∃ d, firstDirective ds "deprecated" d ∧ hasStringReason d s := by
    intro s
    rw [reasonOf_eq_some_iff]
    constructor
    · rintro ⟨d, hd, ha⟩
      exact ⟨d, hd, (firstArgument_iff_hasStringReason hwf hd s).mp ha⟩
    · rintro ⟨d, hd, ha⟩
      exact ⟨d, hd, (firstArgument_iff_hasStringReason hwf hd s).mpr ha⟩
  refine ⟨?_, hsome⟩
  constructor
  · rintro ⟨s, hs⟩
    obtain ⟨d, hd, _⟩ := (hsome s).mp hs
    rw [(schema.DirectiveList.Get_eq_some_iff_first ds "deprecated" d).mpr hd]
    rfl
  · intro h
    cases hg : schema.DirectiveList.Get ds "deprecated" with
    | none => simp [hg] at h
    | some d =>
      have hd := (schema.DirectiveList.Get_eq_some_iff_first ds "deprecated" d).mp hg
      obtain ⟨hmem, hname⟩ := mem_of_firstDirective hd
      obtain ⟨s, hs⟩ := hwf d hmem hname
      exact ⟨s, (hsome s).mpr ⟨d, hd, hs⟩⟩

/-- C6: for every Field `f` and every EnumValue `v` of a Schema Model that
meets the projector's precondition on deprecation (a directive named
`deprecated` carries a `reason` argument that is a string constant),
`IsDeprecated()` is true iff the attached directive list contains a directive
named `deprecated`; `DeprecationReason()` is present iff `IsDeprecated()` is
true and absent iff it is false; and it is present with the value `s` exactly
when `s` is the string value of the argument named `reason` on the (first)
directive named `deprecated`.  For `B @deprecated(reason: "use C")` the reason
is `"use C"`. -/
theorem DeprecationReason_present_iff_deprecated (f : Field) (v : EnumValue)
    (hf : DeprecationWellFormed f.field.Directives)
    (hv : DeprecationWellFormed v.value.Directives) :
    (f.IsDeprecated = true ↔ carries f.field.Directives "deprecated") ∧
      ((∃ s, f.DeprecationReason = .ok (some s)) ↔ f.IsDeprecated = true) ∧
      (f.DeprecationReason = .ok none ↔ f.IsDeprecated = false) ∧
      (∀ s, f.DeprecationReason = .ok (some s) ↔
        ∃ d, firstDirective f.field.Directives "deprecated" d ∧ hasStringReason d s) ∧
      (v.IsDeprecated = true ↔ carries v.value.Directives "deprecated") ∧
      ((∃ s, v.DeprecationReason = .ok (some s)) ↔ v.IsDeprecated = true) ∧
      (v.DeprecationReason = .ok none ↔ v.IsDeprecated = false) ∧
      (∀ s, v.DeprecationReason = .ok (some s) ↔
        ∃ d, firstDirective v.value.Directives "deprecated" d ∧ hasStringReason d s) ∧
      (EnumValue.mk enumValueB).IsDeprecated = true ∧
      (EnumValue.mk enumValueB).DeprecationReason = .ok (some "use C") := by
  have hF := reasonOf_wellFormed f.field.Directives hf
  have hV := reasonOf_wellFormed v.value.Directives hv
  refine ⟨?_, ?_, ?_, ?_, ?_, ?_, ?_, ?_, rfl, rfl⟩
  · exact schema.DirectiveList.Get_isSome_iff _ _
  · rw [Field.deprecationReason_eq_reasonOf]
    exact hF.1
  · rw [Field.deprecationReason_eq_reasonOf]
    exact reasonOf_eq_none_iff _
  · intro s
    rw [Field.deprecationReason_eq_reasonOf]
    exact hF.2 s
  · exact schema.DirectiveList.Get_isSome_iff _ _
  · rw [EnumValue.deprecationReason_value_eq_reasonOf]
    exact hV.1
  · rw [EnumValue.deprecationReason_value_eq_reasonOf]
    exact reasonOf_eq_none_iff _
  · intro s
    rw [EnumValue.deprecationReason_value_eq_reasonOf]
    exact hV.2 s

theorem wellFormed_single_reason (reason : String) :
    DeprecationWellFormed [⟨"deprecated", [⟨"reason", .str reason⟩]⟩] := by
  intro d hd _
  have hd' : d = ⟨"deprecated", [⟨"reason", .str reason⟩]⟩ := by simpa using hd
  subst hd'
  exact ⟨reason, ⟨⟨"reason", .str reason⟩, by simp, rfl⟩, by
    intro a ha _
    have ha' : a = ⟨"reason", .str reason⟩ := by simpa using ha
    rw [ha']⟩

/-- C6 on the field `f: Int @deprecated(reason: "use g")` and the enum value
`B @deprecated(reason: "use C")`: both are deprecated and their reasons are
present. -/
theorem DeprecationReason_present_iff_deprecated_witness :
    DeprecationWellFormed fieldDeprecated.field.Directives ∧
      DeprecationWellFormed (EnumValue.mk enumValueB).value.Directives ∧
      fieldDeprecated.IsDeprecated = true ∧
      fieldDeprecated.DeprecationReason = .ok (some "use g") ∧
      ((∃ s, fieldDeprecated.DeprecationReason = .ok (some s)) ↔
        fieldDeprecated.IsDeprecated = true) ∧
      ((∃ s, (EnumValue.mk enumValueB).DeprecationReason = .ok (some s)) ↔
        (EnumValue.mk enumValueB).IsDeprecated = true) :=
  ⟨wellFormed_single_reason "use g", wellFormed_single_reason "use C", rfl, rfl,
    (DeprecationReason_present_iff_deprecated fieldDeprecated ⟨enumValueB⟩
      (wellFormed_single_reason "use g") (wellFormed_single_reason "use C")).2.1,
    (DeprecationReason_present_iff_deprecated fieldDeprecated ⟨enumValueB⟩
      (wellFormed_single_reason "use g") (wellFormed_single_reason "use C")).2.2.2.2.2.1⟩

end introspection

namespace lexer

open scanner

theorem Lexer.consumeLoop_eq :
    ∀ (fuel : Nat) (l : Lexer), l.sc.tokens.length < fuel →
      Lexer.consumeLoop fuel l = l.atNextSignificant
  | 0, _, h => absurd h (Nat.not_lt_zero _)
  | fuel + 1, ⟨⟨[], el, ec, tt, ln, cl⟩, nx⟩, _ => by
    simp [Lexer.consumeLoop, Scanner.Scan, Lexer.atNextSignificant]
  | fuel + 1, ⟨⟨t :: rest, el, ec, tt, ln, cl⟩, nx⟩, h => by
    have hlen : rest.length < fuel := by simpa using h
    by_cases hc : t.kind = .Char ','
    · have ih := Lexer.consumeLoop_eq fuel
        ⟨⟨rest, el, ec, t.text, t.line, t.column⟩, t.kind⟩ hlen
      simp only [Lexer.consumeLoop, Scanner.Scan, hc, if_true]
      simp only [hc] at ih
      rw [ih]
      simp [Lexer.atNextSignificant, List.dropWhile, isComma, hc]
    · simp [Lexer.consumeLoop, Scanner.Scan, Lexer.atNextSignificant, List.dropWhile,
        isComma, hc]

theorem Lexer.Consume_eq (l : Lexer) : l.Consume = l.atNextSignificant :=
  Lexer.consumeLoop_eq _ l (Nat.lt_succ_self _)

/-- The bound on the iterations in `Consume` is never reached: `Consume`
satisfies the equation of the source loop. -/
theorem Lexer.Consume_unfold (l : Lexer) :
    l.Consume =
      if (l.sc.Scan).1 = .Char ',' then
        Lexer.Consume ⟨(l.sc.Scan).2, (l.sc.Scan).1⟩
      else ⟨(l.sc.Scan).2, (l.sc.Scan).1⟩ := by
  rw [Lexer.Consume_eq]
  obtain ⟨⟨ts, el, ec, tt, ln, cl⟩, nx⟩ := l
  cases ts with
  | nil => simp [Scanner.Scan, Lexer.atNextSignificant]
  | cons t rest =>
    by_cases hc : t.kind = .Char ','
    · simp only [Scanner.Scan, hc, if_true]
      rw [Lexer.Consume_eq]
      simp [Lexer.atNextSignificant, List.dropWhile, isComma, hc]
    · simp [Scanner.Scan, Lexer.atNextSignificant, List.dropWhile, isComma, hc]

theorem filter_dropWhile_isComma (ts : List Token) :
    ts.filter (fun t => !isComma t) = (ts.dropWhile isComma).filter (fun t => !isComma t) := by
  induction ts with
  | nil => rfl
  | cons t rest ih =>
    by_cases hc : isComma t = true
    · simp [List.dropWhile, hc, ih]
    · simp [List.dropWhile, hc]

theorem take_append_replicate {α : Type} (x : α) :
    ∀ (xs : List α) (n m k : Nat), n ≤ m → n ≤ k →
      (xs ++ List.replicate m x).take n = (xs ++ List.replicate k x).take n
  | [], n, m, k, hm, hk => by
    simp [List.take_replicate, Nat.min_eq_left hm, Nat.min_eq_left hk]
  | _ :: _, 0, _, _, _, _ => by simp
  | a :: xs, n + 1, m, k, hm, hk => by
    have ih := take_append_replicate x xs n m k (Nat.le_of_succ_le hm) (Nat.le_of_succ_le hk)
    simp [List.take, ih]

theorem Lexer.observe_eq :
    ∀ (n : Nat) (l : Lexer),
      l.observe n =
        ((l.sc.tokens.filter (fun t => !isComma t)).map (fun t => (t.kind, t.text)) ++
          List.replicate n (Rune.EOF, "")).take n
  | 0, _ => by simp [Lexer.observe]
  | n + 1, l => by
    have ih := Lexer.observe_eq n l.atNextSignificant
    simp only [Lexer.observe, Lexer.Consume_eq, ih]
    rw [filter_dropWhile_isComma l.sc.tokens]
    unfold Lexer.atNextSignificant
    cases hd : l.sc.tokens.dropWhile isComma with
    | nil =>
      simp [Lexer.Peek, Scanner.TokenText, List.replicate_succ]
    | cons t rest =>
      have ht : isComma t = false := by
        have h := List.head_dropWhile_not isComma l.sc.tokens (by simp [hd])
        simpa [hd] using h
      simp only [Lexer.Peek, Scanner.TokenText, List.filter_cons, ht, Bool.not_false, if_true,
        List.map_cons, List.cons_append, List.take_succ_cons]
      rw [take_append_replicate (Rune.EOF, "") _ n n (n + 1) (Nat.le_refl _) (Nat.le_succ _)]

end lexer

namespace lexer

open scanner

/-- C7: `Consume()` skips exactly the commas in front of the cursor and makes
the first token that is not a comma the current one (`EOF` at the end of the
text), and `n` rounds of `Consume()` and `Peek()` show the first `n` entries of
the token sequence with all commas removed, followed by `EOF`; the text
`a, b,,c` shows `a, b, c, EOF`. -/
theorem Lexer.Consume_skips_commas (l : Lexer) (n : Nat) :
    (∃ skipped rest, l.sc.tokens = skipped ++ rest ∧ (∀ t ∈ skipped, t.kind = .Char ',') ∧
        ((rest = [] ∧ l.Consume.Peek = .EOF ∧ l.Consume.sc.tokens = []) ∨
          ∃ t rest', rest = t :: rest' ∧ t.kind ≠ .Char ',' ∧ l.Consume.Peek = t.kind ∧
            l.Consume.sc.TokenText = t.text ∧ l.Consume.Location = ⟨t.line, t.column⟩ ∧
            l.Consume.sc.tokens = rest')) ∧
      l.observe n =
        ((l.sc.tokens.filter (fun t => !isComma t)).map (fun t => (t.kind, t.text)) ++
          List.replicate n (Rune.EOF, "")).take n ∧
      (NewLexer tokensABC 1 8).observe 4 =
        [(.Ident, "a"), (.Ident, "b"), (.Ident, "c"), (.EOF, "")] := by
  refine ⟨⟨l.sc.tokens.takeWhile isComma, l.sc.tokens.dropWhile isComma,
    (List.takeWhile_append_dropWhile _ _).symm, ?_, ?_⟩, Lexer.observe_eq n l, rfl⟩
  · intro t ht
    have h := List.mem_takeWhile_imp ht
    simpa [isComma] using h
  · rw [Lexer.Consume_eq]
    unfold Lexer.atNextSignificant
    cases hd : l.sc.tokens.dropWhile isComma with
    | nil => exact Or.inl ⟨rfl, rfl, rfl⟩
    | cons t rest =>
      have ht : isComma t = false := by
        have h := List.head_dropWhile_not isComma l.sc.tokens (by simp [hd])
        simpa [hd] using h
      refine Or.inr ⟨t, rest, rfl, ?_, rfl, rfl, rfl, rfl⟩
      simpa [isComma] using ht

theorem isOneOf_iff (one : String) (of : List String) : isOneOf one of = true ↔ one ∈ of := by
  induction of with
  | nil => simp [isOneOf]
  | cons v of ih =>
    by_cases h : one = v
    · simp [isOneOf, h]
    · simp [isOneOf, h, ih]

theorem occursIn_intercalate_go (sep : String) (x : String) :
    ∀ (xs : List String) (acc : String),
      (Go.occursIn x acc ∨ x ∈ xs) → Go.occursIn x (String.intercalate.go acc sep xs)
  | [], acc, h => by
    rcases h with h | h
    · simpa [String.intercalate.go] using h
    · simp at h
  | a :: xs, acc, h => by
    simp only [String.intercalate.go]
    apply occursIn_intercalate_go sep x xs
    rcases h with h | h
    · left
      unfold Go.occursIn at *
      simp only [String.data_append, List.append_assoc]
      exact h.trans (List.infix_append' [] acc.data (sep.data ++ a.data))
    · rcases List.mem_cons.mp h with rfl | h
      · left
        unfold Go.occursIn
        simp only [String.data_append]
        exact List.IsSuffix.isInfix (List.suffix_append _ _)
      · exact Or.inr h

theorem occursIn_intercalate (sep x : String) (xs : List String) (h : x ∈ xs) :
    Go.occursIn x (sep.intercalate xs) := by
  cases xs with
  | nil => simp at h
  | cons a xs =>
    simp only [String.intercalate]
    apply occursIn_intercalate_go
    rcases List.mem_cons.mp h with rfl | h
    · exact Or.inl (List.infix_refl _)
    · exact Or.inr h

/-- C8: `ConsumeKeyword(candidates…)` returns the text of the current token and
advances when the current token is an identifier whose text is one of the
candidates, and in every other state raises, without advancing, the syntax
fault whose message is `unexpected`, the quoted text seen, `, expecting` and
the bracketed list of the quoted candidates; that message contains the quoted
text seen, the list, and every quoted candidate.  On the current token
`union`, `ConsumeKeyword("type","interface")` fails with the message
`unexpected "union", expecting ["type" "interface"]`. -/
theorem Lexer.ConsumeKeyword_spec (go : Go.Lib) (l : Lexer) (keywords : List String) :
    Lexer.ConsumeKeyword go l keywords =
        (if l.Peek = .Ident ∧ l.sc.TokenText ∈ keywords then (.ok l.sc.TokenText, l.Consume)
         else
          (.error (.syntaxError ("unexpected " ++ go.Quote l.sc.TokenText ++ ", expecting " ++
            go.QuoteSlice keywords)), l)) ∧
      Go.occursIn (go.Quote l.sc.TokenText)
        ("unexpected " ++ go.Quote l.sc.TokenText ++ ", expecting " ++ go.QuoteSlice keywords) ∧
      Go.occursIn (go.QuoteSlice keywords)
        ("unexpected " ++ go.Quote l.sc.TokenText ++ ", expecting " ++ go.QuoteSlice keywords) ∧
      (∀ k ∈ keywords, Go.occursIn (go.Quote k)
        ("unexpected " ++ go.Quote l.sc.TokenText ++ ", expecting " ++
          go.QuoteSlice keywords)) ∧
      lexerAtUnion.Peek = .Ident ∧ lexerAtUnion.sc.TokenText = "union" ∧
      Lexer.ConsumeKeyword Go.plainLib lexerAtUnion ["type", "interface"] =
        (.error (.syntaxError "unexpected \"union\", expecting [\"type\" \"interface\"]"),
          lexerAtUnion) := by
  have hslice : Go.occursIn (go.QuoteSlice keywords)
      ("unexpected " ++ go.Quote l.sc.TokenText ++ ", expecting " ++ go.QuoteSlice keywords) := by
    unfold Go.occursIn
    simp only [String.data_append]
    exact List.IsSuffix.isInfix (List.suffix_append _ _)
  refine ⟨?_, ?_, hslice, ?_, rfl, rfl, rfl⟩
  · by_cases h1 : l.next = .Ident
    · by_cases h2 : l.sc.TokenText ∈ keywords
      · have h3 : isOneOf l.sc.TokenText keywords = true := (isOneOf_iff _ _).mpr h2
        simp [Lexer.ConsumeKeyword, Lexer.Peek, h1, h2, h3]
      · have h3 : isOneOf l.sc.TokenText keywords = false := by
          simpa using (isOneOf_iff l.sc.TokenText keywords).not.mpr h2
        simp [Lexer.ConsumeKeyword, Lexer.Peek, Lexer.SyntaxError, h1, h2, h3]
    · simp [Lexer.ConsumeKeyword, Lexer.Peek, Lexer.SyntaxError, h1]
  · unfold Go.occursIn
    simp only [String.data_append, List.append_assoc]
    exact List.infix_append' _ _ _
  · intro k hk
    refine List.IsInfix.trans ?_ hslice
    unfold Go.Lib.QuoteSlice
    have h := occursIn_intercalate " " (go.Quote k) (keywords.map go.Quote)
      (List.mem_map_of_mem _ hk)
    unfold Go.occursIn at h
    simp only [String.data_append]
    exact h.trans (List.infix_append _ _ _)

end lexer

namespace lexer

open scanner

/-- Slicing the three quote characters off both ends of a block string. -/
theorem extract_blockString (s : String) :
    6 ≤ ("\"\"\"" ++ s ++ "\"\"\"").utf8ByteSize ∧
      ("\"\"\"" ++ s ++ "\"\"\"").extract ⟨3⟩
        ⟨("\"\"\"" ++ s ++ "\"\"\"").utf8ByteSize - 3⟩ = s := by
  have hq : String.utf8Len ['"', '"', '"'] = 3 := by decide
  have hdata : "\"\"\"" ++ s ++ "\"\"\"" = ⟨['"', '"', '"'] ++ s.data ++ ['"', '"', '"']⟩ := by
    apply String.ext
    simp
  have hsize : ("\"\"\"" ++ s ++ "\"\"\"").utf8ByteSize = 3 + String.utf8Len s.data + 3 := by
    rw [hdata, String.utf8ByteSize_mk, String.utf8Len_append, String.utf8Len_append, hq]
  refine ⟨by omega, ?_⟩
  have h := String.extract_of_valid ['"', '"', '"'] s.data ['"', '"', '"']
  rw [hq] at h
  rw [hsize, hdata]
  have hsub : 3 + String.utf8Len s.data + 3 - 3 = 3 + String.utf8Len s.data := by omega
  rw [hsub, h]

/-- C9: when the current token is a BlockString whose raw text is three quote
characters, `s`, three quote characters, `ConsumeDescription()` returns without
a fault the Description with show type `ShowBlockDescription`, the text `s`
untouched (the raw text without its first three and last three bytes) and the
location read before the call, and the lexer has advanced to the next
significant token; on `"""doc""" type T { f: Int }` the text is `doc`. -/
theorem Lexer.ConsumeDescription_blockString (go : Go.Lib) (l : Lexer) (s : String)
    (hkind : l.Peek = .BlockString)
    (htext : l.sc.TokenText = "\"\"\"" ++ s ++ "\"\"\"") :
    Lexer.ConsumeDescription go l =
        (.ok ⟨.ShowBlockDescription, s, l.Location⟩, l.Consume) ∧
      s = l.sc.TokenText.extract ⟨3⟩ ⟨l.sc.TokenText.utf8ByteSize - 3⟩ ∧
      Lexer.ConsumeDescription go lexerAtDoc =
        (.ok ⟨.ShowBlockDescription, "doc", ⟨1, 1⟩⟩, lexerAtDoc.Consume) ∧
      lexerAtDoc.Consume.Peek = .Ident ∧ lexerAtDoc.Consume.sc.TokenText = "type" := by
  obtain ⟨hlen, hext⟩ := extract_blockString s
  refine ⟨?_, ?_, rfl, rfl, rfl⟩
  · have hnext : l.next = .BlockString := hkind
    have hlen' : ¬ l.sc.TokenText.utf8ByteSize < 6 := by
      rw [htext]
      omega
    simp only [Lexer.ConsumeDescription, hkind, Lexer.ConsumeToken, hnext, hlen']
    simp [htext, hext]
  · rw [htext, hext]

/-- C9 on `"""doc""" type T { f: Int }`. -/
theorem Lexer.ConsumeDescription_blockString_witness :
    lexerAtDoc.Peek = .BlockString ∧ lexerAtDoc.sc.TokenText = "\"\"\"" ++ "doc" ++ "\"\"\"" ∧
      Lexer.ConsumeDescription Go.plainLib lexerAtDoc =
        (.ok ⟨.ShowBlockDescription, "doc", lexerAtDoc.Location⟩, lexerAtDoc.Consume) :=
  ⟨rfl, rfl, (Lexer.ConsumeDescription_blockString Go.plainLib lexerAtDoc "doc" rfl rfl).1⟩

/-- C10: when the current token is neither a String nor a BlockString,
`ConsumeDescription()` returns without a fault the Description with show type
`NoDescription` and empty text, and the lexer state is the one before the
call; so on `"""doc""" type T { f: Int }` a second `ConsumeDescription()`,
issued right after the one that consumed the block string, yields
`NoDescription` and stays on `type`. -/
theorem Lexer.ConsumeDescription_none (go : Go.Lib) (l : Lexer)
    (hs : l.Peek ≠ .String) (hb : l.Peek ≠ .BlockString) :
    Lexer.ConsumeDescription go l = (.ok ⟨.NoDescription, "", l.Location⟩, l) ∧
      Lexer.ConsumeDescription go (Lexer.ConsumeDescription go lexerAtDoc).2 =
        (.ok ⟨.NoDescription, "", ⟨1, 11⟩⟩, lexerAtDoc.Consume) := by
  refine ⟨?_, rfl⟩
  simp [Lexer.ConsumeDescription, hs, hb]

/-- C10 on the state reached after the block string of
`"""doc""" type T { f: Int }` was consumed. -/
theorem Lexer.ConsumeDescription_none_witness :
    lexerAtDoc.Consume.Peek ≠ .String ∧ lexerAtDoc.Consume.Peek ≠ .BlockString ∧
      Lexer.ConsumeDescription Go.plainLib lexerAtDoc.Consume =
        (.ok ⟨.NoDescription, "", lexerAtDoc.Consume.Location⟩, lexerAtDoc.Consume) :=
  ⟨by decide, by decide,
    (Lexer.ConsumeDescription_none Go.plainLib lexerAtDoc.Consume (by decide) (by decide)).1⟩

end lexer

namespace lexer

open scanner

/-- C11: when the body completes without a fault, `CatchSyntaxError(body)`
returns no error; when the body raises the syntax-error fault with message `m`,
as `SyntaxError(m)` raises it, the fault is intercepted and the returned error
has the message `syntax error: ` followed by `m` and the single location
`Location()` of the lexer state the body left behind: a body that consumes the
identifier `foo` and then fails on the integer `42` is located at `42`. -/
theorem Lexer.CatchSyntaxError_intercepts {α : Type} (go : Go.Lib) (l : Lexer)
    (f : Lexer → Outcome α) :
    (∀ r l', f l = (.ok r, l') → l.CatchSyntaxError f = (.ok none, l')) ∧
      (∀ m l', f l = (.error (l'.SyntaxError m), l') →
        l.CatchSyntaxError f =
          (.ok (some ⟨"syntax error: " ++ m, [l'.Location]⟩), l')) ∧
      l.CatchSyntaxError (fun l' => (.error (l'.SyntaxError "boom"), l'.Consume) : Lexer →
          Outcome Unit) =
        (.ok (some ⟨"syntax error: boom", [l.Consume.Location]⟩), l.Consume) ∧
      lexerAtFoo.CatchSyntaxError (Lexer.ConsumeIdent go) = (.ok none, lexerAtInt) ∧
      lexerAtFoo.CatchSyntaxError (twoIdents Go.plainLib) =
        (.ok (some ⟨"syntax error: unexpected \"42\", expecting token", [⟨1, 5⟩]⟩),
          lexerAtInt) := by
  refine ⟨?_, ?_, rfl, rfl, rfl⟩
  · intro r l' h
    simp [Lexer.CatchSyntaxError, h]
  · intro m l' h
    simp [Lexer.CatchSyntaxError, Lexer.SyntaxError, h]

/-- C12: when the body raises a fault that is not the syntax-error fault,
`CatchSyntaxError(body)` returns no value: it raises that same fault again, in
the lexer state the body left behind. -/
theorem Lexer.CatchSyntaxError_reraises {α : Type} (l l' : Lexer) (f : Lexer → Outcome α)
    (e : Go.Fault) (hf : f l = (.error e, l')) (he : ∀ m, e ≠ .syntaxError m) :
    l.CatchSyntaxError f = (.error e, l') := by
  cases e with
  | syntaxError m => exact absurd rfl (he m)
  | string m => simp [Lexer.CatchSyntaxError, hf]
  | runtimeError m => simp [Lexer.CatchSyntaxError, hf]

/-- C12 on a body that calls `ConsumeString()` on the malformed literal
`"a\qb"`. -/
theorem Lexer.CatchSyntaxError_reraises_witness :
    Lexer.ConsumeString Go.plainLib lexerAtBadString =
        (.error (.string "Invalid string literal at (line, column): invalid syntax "),
          lexerAtBadString) ∧
      lexerAtBadString.CatchSyntaxError (Lexer.ConsumeString Go.plainLib) =
        (.error (.string "Invalid string literal at (line, column): invalid syntax "),
          lexerAtBadString) :=
  ⟨rfl, Lexer.CatchSyntaxError_reraises lexerAtBadString lexerAtBadString
    (Lexer.ConsumeString Go.plainLib)
    (.string "Invalid string literal at (line, column): invalid syntax ") rfl
    (fun _ h => Go.Fault.noConfusion h)⟩

/-- C13: on a current token of kind String, `ConsumeString()` returns the
un-escaped content and advances to the next significant token when the raw
text un-quotes, and otherwise raises, without advancing, a fault that carries
a plain string and is not the syntax-error fault, which `CatchSyntaxError`
around the call raises again instead of intercepting. -/
theorem Lexer.ConsumeString_spec (go : Go.Lib) (l : Lexer) (hkind : l.Peek = .String) :
    (∀ unquoted, go.Unquote l.sc.TokenText = .ok unquoted →
        l.ConsumeString go = (.ok unquoted, l.Consume) ∧
        l.CatchSyntaxError (Lexer.ConsumeString go) = (.ok none, l.Consume)) ∧
      (∀ err, go.Unquote l.sc.TokenText = .error err →
        l.ConsumeString go =
          (.error (.string
            ("Invalid string literal at " ++ go.FormatLocation l.Location ++ ": " ++ err ++
              " ")), l) ∧
        (∀ m, Go.Fault.string
            ("Invalid string literal at " ++ go.FormatLocation l.Location ++ ": " ++ err ++
              " ") ≠ .syntaxError m) ∧
        l.CatchSyntaxError (Lexer.ConsumeString go) =
          (.error (.string
            ("Invalid string literal at " ++ go.FormatLocation l.Location ++ ": " ++ err ++
              " ")), l)) := by
  have hnext : l.next = .String := hkind
  constructor
  · intro unquoted hu
    have h : l.ConsumeString go = (.ok unquoted, l.Consume) := by
      simp [Lexer.ConsumeString, hu, Lexer.ConsumeToken, hnext]
    exact ⟨h, by simp [Lexer.CatchSyntaxError, h]⟩
  · intro err he
    have h : l.ConsumeString go =
        (.error (.string
          ("Invalid string literal at " ++ go.FormatLocation l.Location ++ ": " ++ err ++
            " ")), l) := by
      simp [Lexer.ConsumeString, he]
    exact ⟨h, fun _ hm => Go.Fault.noConfusion hm, by simp [Lexer.CatchSyntaxError, h]⟩

/-- C13 on the string literal `"hi"`, which un-quotes to `hi`; the malformed
literal `"a\qb"` faults with a plain string. -/
theorem Lexer.ConsumeString_spec_witness :
    lexerAtString.Peek = .String ∧
      Go.plainLib.Unquote lexerAtString.sc.TokenText = .ok "hi" ∧
      lexerAtString.ConsumeString Go.plainLib = (.ok "hi", lexerAtString.Consume) ∧
      lexerAtBadString.Peek = .String ∧
      lexerAtBadString.CatchSyntaxError (Lexer.ConsumeString Go.plainLib) =
        (.error (.string "Invalid string literal at (line, column): invalid syntax "),
          lexerAtBadString) :=
  ⟨rfl, rfl,
    ((Lexer.ConsumeString_spec Go.plainLib lexerAtString rfl).1 "hi" rfl).1,
    rfl,
    ((Lexer.ConsumeString_spec Go.plainLib lexerAtBadString rfl).2 "invalid syntax" rfl).2.2⟩

end lexer

namespace introspection

theorem ofTypeN_wrapAll (t : schema.Type_) :
    ∀ (i : Nat) (ws : List Wrapping), i ≤ ws.length →
      ofTypeN i (WrapType (wrapAll ws t)) = some (WrapType (wrapAll (ws.drop i) t))
  | 0, _, _ => rfl
  | i + 1, [], h => absurd h (Nat.not_succ_le_zero i)
  | i + 1, w :: ws, h => by
    have ih := ofTypeN_wrapAll t i ws (Nat.le_of_succ_le_succ h)
    cases w <;> simpa [ofTypeN, wrapAll, Wrapping.apply, WrapType, Type_.OfType] using ih

/-- C14: the wrapper of `List{ofType: t}` and the wrapper of `NonNull{ofType: t}`
have `OfType()` equal to the wrapper of `t`, and `Kind()` of a wrapper reports
the variant of the wrapped type; so under any nesting `ws` of `List` and
`NonNull` around `t`, `i` calls of `OfType()` reach the wrapper of the type
with the `i` outer levels removed, whose `Kind()` is that of the next level,
and as many calls as there are levels reach the wrapper of `t`.  For
`NonNull{List{Scalar("String")}}` the kinds are `NON_NULL`, `LIST`, `SCALAR`
and the innermost name is `String`. -/
theorem Type_.OfType_unwraps_one_level (t : schema.Type_) (ws : List Wrapping) (i : Nat) :
    (WrapType (.List t)).OfType = some (WrapType t) ∧
      (WrapType (.NonNull t)).OfType = some (WrapType t) ∧
      (WrapType (.List t)).Kind = .ok "LIST" ∧
      (WrapType (.NonNull t)).Kind = .ok "NON_NULL" ∧
      (WrapType t).Kind = .ok (schema.typeKind t) ∧
      (i ≤ ws.length →
        ofTypeN i (WrapType (wrapAll ws t)) = some (WrapType (wrapAll (ws.drop i) t))) ∧
      (∀ h : i < ws.length,
        (ofTypeN i (WrapType (wrapAll ws t))).map Type_.Kind =
          some (.ok (ws.get ⟨i, h⟩).kind)) ∧
      ofTypeN ws.length (WrapType (wrapAll ws t)) = some (WrapType t) ∧
      (WrapType nonNullListString).Kind = .ok "NON_NULL" ∧
      ((WrapType nonNullListString).OfType.map Type_.Kind) = some (.ok "LIST") ∧
      (((WrapType nonNullListString).OfType.bind Type_.OfType).map Type_.Kind) =
        some (.ok "SCALAR") ∧
      ((WrapType nonNullListString).OfType.bind Type_.OfType).map Type_.Name =
        some (some "String") := by
  refine ⟨rfl, rfl, rfl, rfl, rfl, ofTypeN_wrapAll t i ws, ?_, ?_, rfl, rfl, rfl, rfl⟩
  · intro h
    rw [ofTypeN_wrapAll t i ws (Nat.le_of_lt h)]
    have hd : ws.drop i = ws.get ⟨i, h⟩ :: ws.drop (i + 1) := by
      simp
    rw [hd]
    cases ws.get ⟨i, h⟩ <;> rfl
  · have h := ofTypeN_wrapAll t ws.length ws (Nat.le_refl _)
    simpa [wrapAll] using h

/-- C14 on the nesting `NonNull{List{_}}` around `Scalar("String")`, unwrapped
once. -/
theorem Type_.OfType_unwraps_one_level_witness :
    (1 : Nat) ≤ [Wrapping.nonNull, Wrapping.list].length ∧
      ofTypeN 1 (WrapType (wrapAll [.nonNull, .list] (.Scalar "String" {}))) =
        some (WrapType (.List (.Scalar "String" {}))) ∧
      (ofTypeN 1 (WrapType (wrapAll [.nonNull, .list] (.Scalar "String" {})))).map
        Type_.Kind = some (.ok "LIST") :=
  ⟨by decide,
    (Type_.OfType_unwraps_one_level (.Scalar "String" {}) [.nonNull, .list] 1).2.2.2.2.2.1
      (by decide),
    (Type_.OfType_unwraps_one_level (.Scalar "String" {}) [.nonNull, .list] 1).2.2.2.2.2.2.1
      (by decide)⟩

end introspection

namespace introspection

/-- C15 fails on `PossibleTypes()`: on an Interface and on a Union that store
their possible types in the order `Zebra, Apple`, the call leaves the schema
type storing them in the order `Apple, Zebra`, so the Schema Model after the
call is not the one before it. -/
theorem Type_.PossibleTypes_reorders_stored_list :
    storedPossibleTypes (WrapType interfaceZebraApple) = ["Zebra", "Apple"] ∧
      storedPossibleTypes (WrapType interfaceZebraApple).PossibleTypes.1 =
        ["Apple", "Zebra"] ∧
      (WrapType interfaceZebraApple).PossibleTypes.1 ≠ WrapType interfaceZebraApple ∧
      storedPossibleTypes (WrapType unionZebraApple) = ["Zebra", "Apple"] ∧
      storedPossibleTypes (WrapType unionZebraApple).PossibleTypes.1 = ["Apple", "Zebra"] ∧
      (WrapType unionZebraApple).PossibleTypes.1 ≠ WrapType unionZebraApple := by
  have h1 : storedPossibleTypes (WrapType interfaceZebraApple).PossibleTypes.1 =
      ["Apple", "Zebra"] := rfl
  have h2 : storedPossibleTypes (WrapType unionZebraApple).PossibleTypes.1 =
      ["Apple", "Zebra"] := rfl
  refine ⟨rfl, h1, ?_, rfl, h2, ?_⟩
  · intro h
    have h3 := congrArg storedPossibleTypes h
    rw [h1] at h3
    exact absurd h3 (by decide)
  · intro h
    have h3 := congrArg storedPossibleTypes h
    rw [h2] at h3
    exact absurd h3 (by decide)

/-- C16 as stated fails: with empty text `Description` is present (the empty
string) for the show types `ShowStringDescription` and `ShowBlockDescription`,
and with the text `x` it is present for `PossibleDescription` and absent for
`NoDescription`. -/
theorem Description_distinguishes_show_types :
    Description ⟨.ShowStringDescription, "", ⟨1, 1⟩⟩ = some "" ∧
      Description ⟨.ShowBlockDescription, "", ⟨1, 1⟩⟩ = some "" ∧
      Description ⟨.PossibleDescription, "x", ⟨1, 1⟩⟩ = some "x" ∧
      Description ⟨.NoDescription, "x", ⟨1, 1⟩⟩ = none ∧
      Description ⟨.PossibleDescription, "x", ⟨1, 1⟩⟩ ≠
        Description ⟨.NoDescription, "x", ⟨1, 1⟩⟩ := by
  refine ⟨rfl, rfl, rfl, rfl, ?_⟩
  have h1 : Description ⟨.PossibleDescription, "x", ⟨1, 1⟩⟩ = some "x" := rfl
  have h2 : Description ⟨.NoDescription, "x", ⟨1, 1⟩⟩ = none := rfl
  rw [h1, h2]
  exact Option.some_ne_none _

/-- C16, amended: `Description(d)`, which the Field, InputValue, EnumValue and
Directive wrappers return for their description, is absent exactly when the
show type of `d` is `NoDescription`, or is `PossibleDescription` with empty
text, and otherwise is present with the text of `d`; so an empty text is
absent for `PossibleDescription` and `NoDescription` and a present empty
string for the two other show types, and `PossibleDescription` and
`NoDescription` give the same result exactly on empty text.  `Description()`
of a type wrapper is absent for every named type whose description text is
empty, whatever the show type. -/
theorem Description_spec (d : lexer.Description) (text : String) (loc : lexer.Location)
    (f : Field) (i : InputValue) (v : EnumValue) (dir : Directive) (t : schema.Type_) :
    (Description d = none ↔
        (d.ShowType = .NoDescription ∨ (d.ShowType = .PossibleDescription ∧ d.Text = ""))) ∧
      (Description d = none ∨ Description d = some d.Text) ∧
      Description ⟨.PossibleDescription, "", loc⟩ = none ∧
      Description ⟨.NoDescription, "", loc⟩ = none ∧
      Description ⟨.ShowStringDescription, "", loc⟩ = some "" ∧
      Description ⟨.ShowBlockDescription, "", loc⟩ = some "" ∧
      (Description ⟨.PossibleDescription, text, loc⟩ = Description ⟨.NoDescription, text, loc⟩ ↔
        text = "") ∧
      f.Description = Description f.field.Desc ∧
      i.Description = Description i.value.Desc ∧
      v.Description = Description v.value.Desc ∧
      dir.Description = Description dir.directive.Desc ∧
      ((∀ named, schema.asNamedType t = some named → named.Description = "") →
        (WrapType t).Description = none) ∧
      (WrapType (.Scalar "S" ⟨.ShowStringDescription, "", loc⟩)).Description = none ∧
      (WrapType (.Scalar "S" ⟨.NoDescription, "doc", loc⟩)).Description = some "doc" := by
  refine ⟨?_, ?_, rfl, rfl, rfl, rfl, ?_, rfl, rfl, rfl, rfl, ?_, rfl, rfl⟩
  · obtain ⟨st, tx, lc⟩ := d
    cases st <;> by_cases h : tx = "" <;> simp [Description, h]
  · obtain ⟨st, tx, lc⟩ := d
    cases st <;> by_cases h : tx = "" <;> simp [Description, h]
  · by_cases h : text = "" <;> simp [Description, h]
  · intro h
    unfold Type_.Description WrapType
    cases hn : schema.asNamedType t with
    | none => simp [hn]
    | some named => simp [hn, h named hn]

end introspection

namespace lexer

open scanner

theorem Lexer.ConsumeToken_eq (go : Go.Lib) (l : Lexer) (expected : Rune) :
    l.ConsumeToken go expected =
      (if l.Peek = expected then (.ok (), l.Consume)
       else
        (.error (.syntaxError ("unexpected " ++ go.Quote l.sc.TokenText ++ ", expecting " ++
          go.TokenString expected)), l)) := by
  by_cases h : l.next = expected
  · simp [Lexer.ConsumeToken, Lexer.Peek, h]
  · simp [Lexer.ConsumeToken, Lexer.Peek, Lexer.SyntaxError, h]

theorem Lexer.ConsumeIdent_eq (go : Go.Lib) (l : Lexer) :
    l.ConsumeIdent go =
      (if l.Peek = .Ident then (.ok l.sc.TokenText, l.Consume)
       else
        (.error (.syntaxError ("unexpected " ++ go.Quote l.sc.TokenText ++ ", expecting " ++
          go.TokenString .Ident)), l)) := by
  unfold Lexer.ConsumeIdent
  rw [Lexer.ConsumeToken_eq]
  by_cases h : l.Peek = .Ident <;> simp [h]

theorem Lexer.ConsumeIdentWithLoc_eq (go : Go.Lib) (l : Lexer) :
    l.ConsumeIdentWithLoc go =
      (if l.Peek = .Ident then (.ok (l.sc.TokenText, l.Location), l.Consume)
       else
        (.error (.syntaxError ("unexpected " ++ go.Quote l.sc.TokenText ++ ", expecting " ++
          go.TokenString .Ident)), l)) := by
  unfold Lexer.ConsumeIdentWithLoc
  rw [Lexer.ConsumeToken_eq]
  by_cases h : l.Peek = .Ident <;> simp [h]

theorem Lexer.ConsumeKeyword_eq (go : Go.Lib) (l : Lexer) (keywords : List String) :
    l.ConsumeKeyword go keywords =
      (if l.Peek = .Ident ∧ l.sc.TokenText ∈ keywords then (.ok l.sc.TokenText, l.Consume)
       else
        (.error (.syntaxError ("unexpected " ++ go.Quote l.sc.TokenText ++ ", expecting " ++
          go.QuoteSlice keywords)), l)) := by
  by_cases h1 : l.next = .Ident
  · by_cases h2 : l.sc.TokenText ∈ keywords
    · have h3 : isOneOf l.sc.TokenText keywords = true := (isOneOf_iff _ _).mpr h2
      simp [Lexer.ConsumeKeyword, Lexer.Peek, h1, h2, h3]
    · have h3 : isOneOf l.sc.TokenText keywords = false := by
        simpa using (isOneOf_iff l.sc.TokenText keywords).not.mpr h2
      simp [Lexer.ConsumeKeyword, Lexer.Peek, Lexer.SyntaxError, h1, h2, h3]
  · simp [Lexer.ConsumeKeyword, Lexer.Peek, Lexer.SyntaxError, h1]

/-- The kinds of token that `ConsumeLiteral` accepts. -/
theorem Lexer.ConsumeLiteral_eq (go : Go.Lib) (l : Lexer) :
    l.ConsumeLiteral go =
      (if l.Peek = .Int ∨ l.Peek = .Float ∨ l.Peek = .String ∨ l.Peek = .BlockString ∨
          l.Peek = .Ident
       then (.ok l.sc.TokenText, l.Consume)
       else
        (.error (.syntaxError ("unexpected " ++ go.QuoteRune l.next ++ ", expecting literal")),
          l)) := by
  obtain ⟨sc, next⟩ := l
  cases next <;> simp [Lexer.ConsumeLiteral, Lexer.Peek, Lexer.SyntaxError]

theorem Lexer.CatchSyntaxError_syntaxError {α : Type} (l l' : Lexer) (f : Lexer → Outcome α)
    (m : String) (hf : f l = (.error (.syntaxError m), l')) :
    l.CatchSyntaxError f = (.ok (some ⟨"syntax error: " ++ m, [l'.Location]⟩), l') := by
  simp [Lexer.CatchSyntaxError, hf]

/-- C17: `ConsumeToken(expectedKind)` advances to the next significant token
when the kind of the current token equals `expectedKind` and in every other
state raises a syntax fault, which `CatchSyntaxError` intercepts;
`ConsumeIdent()` returns the text of the current token and advances when the
current token is an identifier and raises a syntax fault otherwise; and
`ConsumeIdentWithLoc()` does the same and returns with the text the location
read before the token was consumed. -/
theorem Lexer.ConsumeToken_spec (go : Go.Lib) (l : Lexer) (expected : Rune) :
    l.ConsumeToken go expected =
        (if l.Peek = expected then (.ok (), l.Consume)
         else
          (.error (.syntaxError ("unexpected " ++ go.Quote l.sc.TokenText ++ ", expecting " ++
            go.TokenString expected)), l)) ∧
      (l.Peek ≠ expected →
        l.CatchSyntaxError (fun l' => l'.ConsumeToken go expected) =
          (.ok (some ⟨"syntax error: " ++ ("unexpected " ++ go.Quote l.sc.TokenText ++
            ", expecting " ++ go.TokenString expected), [l.Location]⟩), l)) ∧
      l.ConsumeIdent go =
        (if l.Peek = .Ident then (.ok l.sc.TokenText, l.Consume)
         else
          (.error (.syntaxError ("unexpected " ++ go.Quote l.sc.TokenText ++ ", expecting " ++
            go.TokenString .Ident)), l)) ∧
      l.ConsumeIdentWithLoc go =
        (if l.Peek = .Ident then (.ok (l.sc.TokenText, l.Location), l.Consume)
         else
          (.error (.syntaxError ("unexpected " ++ go.Quote l.sc.TokenText ++ ", expecting " ++
            go.TokenString .Ident)), l)) ∧
      lexerAtFoo.ConsumeIdentWithLoc go = (.ok ("foo", ⟨1, 1⟩), lexerAtInt) ∧
      lexerAtInt.Location = ⟨1, 5⟩ ∧
      lexerAtInt.ConsumeIdent Go.plainLib =
        (.error (.syntaxError "unexpected \"42\", expecting token"), lexerAtInt) ∧
      lexerAtInt.CatchSyntaxError (Lexer.ConsumeIdent Go.plainLib) =
        (.ok (some ⟨"syntax error: unexpected \"42\", expecting token", [⟨1, 5⟩]⟩),
          lexerAtInt) := by
  refine ⟨Lexer.ConsumeToken_eq go l expected, ?_, Lexer.ConsumeIdent_eq go l,
    Lexer.ConsumeIdentWithLoc_eq go l, rfl, rfl, rfl, rfl⟩
  intro h
  apply Lexer.CatchSyntaxError_syntaxError
  rw [Lexer.ConsumeToken_eq]
  simp [h]

end lexer

namespace lexer

open scanner

theorem Lexer.ConsumeString_of_unquote_error (go : Go.Lib) (l : Lexer) (err : String)
    (h : go.Unquote l.sc.TokenText = .error err) :
    l.ConsumeString go =
      (.error (.string
        ("Invalid string literal at " ++ go.FormatLocation l.Location ++ ": " ++ err ++ " ")),
        l) := by
  simp [Lexer.ConsumeString, h]

/-- C18 fails on `ConsumeString()`: on a current token that is the identifier
`foo`, and on one that is the integer `42`, `ConsumeString()` raises the fault
that carries a plain string, which `CatchSyntaxError` raises again instead of
turning it into a located error, whereas `ConsumeToken(String)` in the same
state raises the syntax fault that is intercepted.  This is so whenever the
text of the current token does not un-quote. -/
theorem Lexer.ConsumeString_wrong_kind_not_recoverable :
    lexerAtFoo.Peek = .Ident ∧ lexerAtFoo.sc.TokenText = "foo" ∧
      lexerAtFoo.ConsumeString Go.plainLib =
        (.error (.string "Invalid string literal at (line, column): invalid syntax "),
          lexerAtFoo) ∧
      lexerAtFoo.CatchSyntaxError (Lexer.ConsumeString Go.plainLib) =
        (.error (.string "Invalid string literal at (line, column): invalid syntax "),
          lexerAtFoo) ∧
      lexerAtInt.Peek = .Int ∧ lexerAtInt.sc.TokenText = "42" ∧
      lexerAtInt.CatchSyntaxError (Lexer.ConsumeString Go.plainLib) =
        (.error (.string "Invalid string literal at (line, column): invalid syntax "),
          lexerAtInt) ∧
      lexerAtFoo.CatchSyntaxError (fun l => l.ConsumeToken Go.plainLib .String) =
        (.ok (some ⟨"syntax error: unexpected \"foo\", expecting token", [⟨1, 1⟩]⟩),
          lexerAtFoo) ∧
      (∀ (go : Go.Lib) (l : Lexer) (err : String), l.Peek ≠ .String →
        go.Unquote l.sc.TokenText = .error err →
        ∃ message, l.CatchSyntaxError (Lexer.ConsumeString go) =
          (.error (.string message), l)) := by
  refine ⟨rfl, rfl, rfl, rfl, rfl, rfl, rfl, rfl, ?_⟩
  intro go l err _ herr
  have h := Lexer.ConsumeString_of_unquote_error go l err herr
  exact ⟨"Invalid string literal at " ++ go.FormatLocation l.Location ++ ": " ++ err ++ " ",
    by simp only [Lexer.CatchSyntaxError, h]⟩

/-- A helper that either succeeds and advances, or raises a syntax fault in the
state it was called in, fails atomically, and the fault is intercepted at the
location of the current token. -/
theorem atomic_of_eq_ite {α : Type} (op : Lexer → Outcome α) (l : Lexer) (cond : Prop)
    [Decidable cond] (r : α) (message : String)
    (hop : op l = if cond then (.ok r, l.Consume) else (.error (.syntaxError message), l))
    (e : Go.Fault) (he : (op l).1 = .error e) :
    (op l).2 = l ∧ ∃ m, e = .syntaxError m ∧
      l.CatchSyntaxError op = (.ok (some ⟨"syntax error: " ++ m, [l.Location]⟩), l) := by
  by_cases hc : cond
  · rw [hop] at he
    simp [hc] at he
  · have hop' : op l = (.error (.syntaxError message), l) := by
      rw [hop]
      simp [hc]
    rw [hop'] at he
    have hm : e = .syntaxError message := by
      have h := Except.error.inj he
      exact h.symm
    exact ⟨by rw [hop'], message, hm, Lexer.CatchSyntaxError_syntaxError l l op message hop'⟩

/-- C19: whenever `ConsumeToken`, `ConsumeIdent`, `ConsumeIdentWithLoc`,
`ConsumeKeyword` or `ConsumeLiteral` raises a fault, the fault is a syntax
fault, the lexer state after it (current token, its text, the scanner cursor
and the location) is the state before the call, and `CatchSyntaxError` around
the call returns the error located at the current token of that state.  On
the integer `42` at line 1, column 5, each of the calls that expects an
identifier or a keyword fails located there. -/
theorem Lexer.consume_failure_atomic (go : Go.Lib) (l : Lexer) (expected : Rune)
    (keywords : List String) (e : Go.Fault) :
    ((l.ConsumeToken go expected).1 = .error e →
        (l.ConsumeToken go expected).2 = l ∧ ∃ m, e = .syntaxError m ∧
          l.CatchSyntaxError (fun l' => l'.ConsumeToken go expected) =
            (.ok (some ⟨"syntax error: " ++ m, [l.Location]⟩), l)) ∧
      ((l.ConsumeIdent go).1 = .error e →
        (l.ConsumeIdent go).2 = l ∧ ∃ m, e = .syntaxError m ∧
          l.CatchSyntaxError (Lexer.ConsumeIdent go) =
            (.ok (some ⟨"syntax error: " ++ m, [l.Location]⟩), l)) ∧
      ((l.ConsumeIdentWithLoc go).1 = .error e →
        (l.ConsumeIdentWithLoc go).2 = l ∧ ∃ m, e = .syntaxError m ∧
          l.CatchSyntaxError (Lexer.ConsumeIdentWithLoc go) =
            (.ok (some ⟨"syntax error: " ++ m, [l.Location]⟩), l)) ∧
      ((l.ConsumeKeyword go keywords).1 = .error e →
        (l.ConsumeKeyword go keywords).2 = l ∧ ∃ m, e = .syntaxError m ∧
          l.CatchSyntaxError (fun l' => l'.ConsumeKeyword go keywords) =
            (.ok (some ⟨"syntax error: " ++ m, [l.Location]⟩), l)) ∧
      ((l.ConsumeLiteral go).1 = .error e →
        (l.ConsumeLiteral go).2 = l ∧ ∃ m, e = .syntaxError m ∧
          l.CatchSyntaxError (Lexer.ConsumeLiteral go) =
            (.ok (some ⟨"syntax error: " ++ m, [l.Location]⟩), l)) ∧
      lexerAtInt.ConsumeToken Go.plainLib .Ident =
        (.error (.syntaxError "unexpected \"42\", expecting token"), lexerAtInt) ∧
      lexerAtInt.ConsumeIdentWithLoc Go.plainLib =
        (.error (.syntaxError "unexpected \"42\", expecting token"), lexerAtInt) ∧
      lexerAtInt.ConsumeKeyword Go.plainLib ["type"] =
        (.error (.syntaxError "unexpected \"42\", expecting [\"type\"]"), lexerAtInt) ∧
      lexerAtInt.Consume.ConsumeLiteral Go.plainLib =
        (.error (.syntaxError "unexpected '?', expecting literal"), lexerAtInt.Consume) ∧
      lexerAtInt.CatchSyntaxError (fun l' => l'.ConsumeKeyword Go.plainLib ["type"]) =
        (.ok (some ⟨"syntax error: unexpected \"42\", expecting [\"type\"]", [⟨1, 5⟩]⟩),
          lexerAtInt) := by
  refine ⟨?_, ?_, ?_, ?_, ?_, rfl, rfl, rfl, rfl, rfl⟩
  · exact atomic_of_eq_ite (fun l' => l'.ConsumeToken go expected) l _ _ _
      (Lexer.ConsumeToken_eq go l expected) e
  · exact atomic_of_eq_ite (Lexer.ConsumeIdent go) l _ _ _ (Lexer.ConsumeIdent_eq go l) e
  · exact atomic_of_eq_ite (Lexer.ConsumeIdentWithLoc go) l _ _ _
      (Lexer.ConsumeIdentWithLoc_eq go l) e
  · exact atomic_of_eq_ite (fun l' => l'.ConsumeKeyword go keywords) l _ _ _
      (Lexer.ConsumeKeyword_eq go l keywords) e
  · exact atomic_of_eq_ite (Lexer.ConsumeLiteral go) l _ _ _ (Lexer.ConsumeLiteral_eq go l) e

end lexer

namespace lexer

open scanner

theorem Lexer.ConsumeDescription_string (go : Go.Lib) (l : Lexer) (hkind : l.Peek = .String) :
    l.ConsumeDescription go =
      (match go.Unquote l.sc.TokenText with
       | .error err =>
         (.error (.string
           ("Invalid string literal at " ++ go.FormatLocation l.Location ++ ": " ++ err ++
             " ")), l)
       | .ok unquoted => (.ok ⟨.ShowStringDescription, unquoted, l.Location⟩, l.Consume)) := by
  have hnext : l.next = .String := hkind
  cases hu : go.Unquote l.sc.TokenText with
  | error err => simp [Lexer.ConsumeDescription, hkind, Lexer.ConsumeString, hu]
  | ok unquoted =>
    simp [Lexer.ConsumeDescription, hkind, Lexer.ConsumeString, hu, Lexer.ConsumeToken, hnext]

theorem Lexer.ConsumeDescription_block (go : Go.Lib) (l : Lexer)
    (hkind : l.Peek = .BlockString) :
    l.ConsumeDescription go =
      (if l.sc.TokenText.utf8ByteSize < 6 then
        (.error (.runtimeError "slice bounds out of range"), l)
       else
        (.ok ⟨.ShowBlockDescription,
          l.sc.TokenText.extract ⟨3⟩ ⟨l.sc.TokenText.utf8ByteSize - 3⟩, l.Location⟩,
          l.Consume)) := by
  have hnext : l.next = .BlockString := hkind
  by_cases hlen : l.sc.TokenText.utf8ByteSize < 6
  · simp [Lexer.ConsumeDescription, hkind, hlen]
  · simp [Lexer.ConsumeDescription, hkind, hlen, Lexer.ConsumeToken, hnext]

/-- C20: whenever `ConsumeDescription()` returns without a fault, the show type
of the result is `ShowStringDescription` iff the current token was a String,
`ShowBlockDescription` iff it was a BlockString and `NoDescription` iff it was
neither, so it is never `PossibleDescription`; and for a String token the text
of the result is the un-escaped content of the token. -/
theorem Lexer.ConsumeDescription_showType (go : Go.Lib) (l l' : Lexer) (d : Description)
    (h : l.ConsumeDescription go = (.ok d, l')) :
    (d.ShowType = .ShowStringDescription ↔ l.Peek = .String) ∧
      (d.ShowType = .ShowBlockDescription ↔ l.Peek = .BlockString) ∧
      (d.ShowType = .NoDescription ↔ (l.Peek ≠ .String ∧ l.Peek ≠ .BlockString)) ∧
      d.ShowType ≠ .PossibleDescription ∧
      (l.Peek = .String → go.Unquote l.sc.TokenText = .ok d.Text) ∧
      d.Loc = l.Location := by
  by_cases hs : l.Peek = .String
  · rw [Lexer.ConsumeDescription_string go l hs] at h
    cases hu : go.Unquote l.sc.TokenText with
    | error err =>
      rw [hu] at h
      simp at h
    | ok unquoted =>
      rw [hu] at h
      simp only [Prod.mk.injEq, Except.ok.injEq] at h
      obtain ⟨rfl, _⟩ := h
      simp [hs]
  · by_cases hb : l.Peek = .BlockString
    · rw [Lexer.ConsumeDescription_block go l hb] at h
      by_cases hlen : l.sc.TokenText.utf8ByteSize < 6
      · simp [hlen] at h
      · simp only [hlen, if_false, Prod.mk.injEq, Except.ok.injEq] at h
        obtain ⟨rfl, _⟩ := h
        simp [hb]
    · have hd : l.ConsumeDescription go = (.ok ⟨.NoDescription, "", l.Location⟩, l) := by
        simp [Lexer.ConsumeDescription, hs, hb]
      rw [hd] at h
      simp only [Prod.mk.injEq, Except.ok.injEq] at h
      obtain ⟨rfl, _⟩ := h
      simp [hs, hb]

/-- C20 on the string literal `"hi"`: the description is
`ShowStringDescription` with the text `hi`. -/
theorem Lexer.ConsumeDescription_showType_witness :
    lexerAtString.ConsumeDescription Go.plainLib =
        (.ok ⟨.ShowStringDescription, "hi", ⟨1, 1⟩⟩, lexerAtString.Consume) ∧
      ((⟨.ShowStringDescription, "hi", ⟨1, 1⟩⟩ : Description).ShowType =
          .ShowStringDescription ↔ lexerAtString.Peek = .String) ∧
      (lexerAtString.Peek = .String →
        Go.plainLib.Unquote lexerAtString.sc.TokenText = .ok "hi") :=
  ⟨rfl,
    (Lexer.ConsumeDescription_showType Go.plainLib lexerAtString lexerAtString.Consume
      ⟨.ShowStringDescription, "hi", ⟨1, 1⟩⟩ rfl).1,
    (Lexer.ConsumeDescription_showType Go.plainLib lexerAtString lexerAtString.Consume
      ⟨.ShowStringDescription, "hi", ⟨1, 1⟩⟩ rfl).2.2.2.2.1⟩

end lexer
